import Mathlib

/-!
# State history plugin: the streaming session

A shallow embedding of `plugins/state_history_plugin/state_history_plugin.cpp`:
the block-id lookup of `state_history_plugin_impl`, and the `session` with its
send pump (`send`), its three `send_update` overloads and its request handlers.

* `uint32_t` values are natural numbers; every C++ operation that can wrap is
  written with an explicit reduction modulo `u32_modulus`.
* A frame of `send_queue` is kept as the value that was packed (`frame`), so that
  the frames can be told apart.
* A member function ends in an `outcome`: it returns (`done`), or an exception leaves it
  (`threw`) and `catch_and_close` turns it into `close()`. The exceptions of the chain accessor
  are caught inside `get_block` and `get_block_id`, and a log query out of range returns
  absence, so that no handler of the model throws (`send_update_result_returns`).
* The registry `sessions` is the list of its sessions in the order of the map; the loop of
  `on_accepted_block` over it is `on_accepted_block_sessions`, and `on_accepted_block` is the
  body of that loop for one session.
* The session carries three fields that are not in the C++ `struct`: `closed`,
  `pushed` and `written`. They only record what the session did (calls of
  `close()`, of `send_queue.push_back` and of `async_write`); no definition reads
  them to decide anything, except that a closed session receives no more events.
-/

namespace eosio

/-! ## Data -/

/-- The modulus of `uint32_t` arithmetic. -/
def u32_modulus : Nat := 4294967296

/-- The type `chain::block_id_type`, a 32-byte digest, kept abstract as a number. -/
abbrev block_id_type := Nat

/-- The type `chain::bytes`. -/
abbrev bytes := List Nat

/-- Modelled from the spec: the `block_position` declaration (`types.hpp`) is not among the
sources; the spec gives it as a pair (height: u32, id: 32 bytes). -/
structure block_position where
  block_num : Nat
  block_id : block_id_type
deriving DecidableEq, Repr

/-- Modelled from the spec: the declaration of `get_blocks_request_v0` (`types.hpp`) is not among
the sources; the fields are those the spec lists for a subscription, and all of them are used by
the session code. -/
structure get_blocks_request_v0 where
  start_block_num : Nat
  end_block_num : Nat
  max_messages_in_flight : Nat
  have_positions : List block_position
  irreversible_only : Bool
  fetch_block : Bool
  fetch_traces : Bool
  fetch_deltas : Bool
deriving DecidableEq, Repr

/-- Modelled from the spec: the declaration of `get_blocks_result_v0` (`types.hpp`) is not among
the sources; the spec gives `head, last_irreversible, this_block?, prev_block?, block?, traces?,
deltas?`. The default values are those of a default-constructed C++ object. -/
structure get_blocks_result_v0 where
  head : block_position := ⟨0, 0⟩
  last_irreversible : block_position := ⟨0, 0⟩
  this_block : Option block_position := none
  prev_block : Option block_position := none
  block : Option bytes := none
  traces : Option bytes := none
  deltas : Option bytes := none
deriving DecidableEq, Repr

/-- Modelled from the spec: the declaration of `get_status_result_v0` (`types.hpp`) is not among
the sources; the fields are those of the spec, which are the ones the status handler assigns. -/
structure get_status_result_v0 where
  head : block_position := ⟨0, 0⟩
  last_irreversible : block_position := ⟨0, 0⟩
  chain_id : Nat := 0
  trace_begin_block : Nat := 0
  trace_end_block : Nat := 0
  chain_state_begin_block : Nat := 0
  chain_state_end_block : Nat := 0
deriving DecidableEq, Repr

/-- An element of `send_queue`. `abi` stands for the bytes of the string
`state_history_plugin_abi`; `status r` and `blocks r` stand for
`fc::raw::pack(state_result{r})`. -/
inductive frame where
  | abi
  | status (r : get_status_result_v0)
  | blocks (r : get_blocks_result_v0)
deriving DecidableEq, Repr

/-- Whether a frame is a packed `get_blocks_result_v0`. -/
def frame.is_blocks_result : frame → Bool
  | .blocks _ => true
  | _ => false

/-- The height of `this_block`, for a frame that is a `get_blocks_result_v0` carrying one. -/
def frame.this_block_num : frame → Option Nat
  | .blocks r => r.this_block.map block_position.block_num
  | _ => none

/-- What the session code uses of a `signed_block`: `calculate_id()` and the packed
`to_signed_block_v0()`, which may be empty. -/
structure signed_block where
  calculate_id : block_id_type
  to_signed_block_v0 : Option bytes

/-- The three ways `controller::fetch_block_by_number` can end: an exception, a null pointer,
a block. -/
inductive fetched where
  | throws
  | null
  | block (b : signed_block)

/-- What the session code reads of `chain_plug->chain()`. -/
structure controller where
  head_block_num : Nat
  head_block_id : block_id_type
  last_irreversible_block_num : Nat
  last_irreversible_block_id : block_id_type
  get_chain_id : Nat
  fetch_block_by_number : Nat → fetched

/-- Modelled from the spec: the log class (`eosio/state_history/log.hpp`) is not among the
sources. A log holds one entry per height of `[begin_block, end_block)`; `block_ids` and
`entries` are its stored ids and raw payloads. -/
structure state_history_log where
  begin_block : Nat
  end_block : Nat
  block_ids : Nat → block_id_type
  entries : Nat → bytes

/-- Modelled from the spec: `log.hpp` is not among the sources. "`get_block_id(h)` returns the
stored id for height `h` if `begin_block ≤ h < end_block`; fails otherwise." `none` is the
failure; the plugin calls it only after it has checked the range, so it never meets it. -/
def state_history_log.get_block_id (log : state_history_log) (block_num : Nat) :
    Option block_id_type :=
  if log.begin_block ≤ block_num ∧ block_num < log.end_block then some (log.block_ids block_num)
  else none

/-- Modelled from the spec: `log.hpp` is not among the sources. "`get_log_entry(h)` returns the
raw payload bytes and version; fails if out of range", and the table of errors has
"Out-of-range log query: recoverable, return absence to caller": the failure reaches the caller
as absence, `none`, which the send step assigns to the optional field of the result ("if the
trace log covers `h`: raw log entry"). -/
def state_history_log.get_log_entry (log : state_history_log) (block_num : Nat) : Option bytes :=
  if log.begin_block ≤ block_num ∧ block_num < log.end_block then some (log.entries block_num)
  else none

/-- The fields of `state_history_plugin_impl` that a session reads. -/
structure plugin where
  chain : controller
  trace_log : Option state_history_log
  chain_state_log : Option state_history_log

/-- The fields of `session`, followed by the record of what it did: `closed` (`close()` was
called), `pushed` (every frame given to `send_queue.push_back`, oldest first) and `written`
(every `async_write` started: the frame, and the argument given to `binary(...)` before it). -/
structure session where
  sending : Bool := false
  sent_abi : Bool := false
  send_queue : List frame := []
  current_request : Option get_blocks_request_v0 := none
  need_to_send_update : Bool := false
  closed : Bool := false
  pushed : List frame := []
  written : List (frame × Bool) := []
deriving DecidableEq, Repr

/-- How a member function ends: it returns (`done`) or an exception leaves it (`threw`); either
way with the session as it is at that moment. -/
inductive outcome where
  | done (s : session)
  | threw (s : session)
deriving DecidableEq, Repr

/-- The session an outcome carries. -/
def outcome.state : outcome → session
  | .done s => s
  | .threw s => s

/-! ## `state_history_plugin_impl` -/

/-- The function `get_block(block_num, result)`: `result` is assigned only when the chain returns
a block that converts to a v0 block; an exception of `fetch_block_by_number` is swallowed. -/
def get_block (p : plugin) (block_num : Nat) (result : Option bytes) : Option bytes :=
  match p.chain.fetch_block_by_number block_num with
  | .throws => result
  | .null => result
  | .block b =>
    match b.to_signed_block_v0 with
    | some v0 => some v0
    | none => result

/-- The last part of `get_block_id`: the chain accessor inside `try`/`catch`. -/
def get_block_id_from_chain (p : plugin) (block_num : Nat) : Option block_id_type :=
  match p.chain.fetch_block_by_number block_num with
  | .block b => some b.calculate_id
  | .null => none
  | .throws => none

/-- The second `if` of `get_block_id` and what follows it. -/
def get_block_id_from_chain_state_log (p : plugin) (block_num : Nat) : Option block_id_type :=
  match p.chain_state_log with
  | some log =>
    if log.begin_block ≤ block_num ∧ block_num < log.end_block then log.get_block_id block_num
    else get_block_id_from_chain p block_num
  | none => get_block_id_from_chain p block_num

/-- The function `state_history_plugin_impl::get_block_id`. -/
def get_block_id (p : plugin) (block_num : Nat) : Option block_id_type :=
  match p.trace_log with
  | some log =>
    if log.begin_block ≤ block_num ∧ block_num < log.end_block then log.get_block_id block_num
    else get_block_id_from_chain_state_log p block_num
  | none => get_block_id_from_chain_state_log p block_num

/-! ## `session`: the send pump -/

/-- The statement `send_queue.push_back(f)`. -/
def push_back (f : frame) (s : session) : session :=
  { s with send_queue := s.send_queue ++ [f], pushed := s.pushed ++ [f] }

/-- The end of `send()`: `sending = true; binary(sent_abi); sent_abi = true;
async_write(send_queue[0])`, for a queue whose first frame is `f`. -/
def start_write (f : frame) (s : session) : session :=
  { s with sending := true, sent_abi := true, written := s.written ++ [(f, s.sent_abi)] }

/-- The two overloads `send(const char*)` and `send(T obj)`: `push_back`, then `send()`.
The queue is not empty after the `push_back`, so this call of `send()` cannot take its branch
`send_queue.empty()`; `send_pushed_eq_send` shows that this is `send` on the pushed session. -/
def send_pushed (f : frame) (s : session) : session :=
  let s := push_back f s
  if s.sending then s
  else start_write (s.send_queue.head (by simp [s, push_back])) s

/-- The statement `--current_request->max_messages_in_flight` and the assignment to
`need_to_send_update` that end `send_update(get_blocks_result_v0)`. They are reached with
`current_request` set; the other case is there only to make the function total. -/
def after_send (current : Nat) (s : session) : session :=
  match s.current_request with
  | none => s
  | some req =>
    let req := { req with
      max_messages_in_flight := (req.max_messages_in_flight + (u32_modulus - 1)) % u32_modulus }
    { s with
      current_request := some req,
      need_to_send_update :=
        decide (req.start_block_num ≤ current) && decide (req.start_block_num < req.end_block_num) }

/-- The statement `if (fetch && log) field = log->get_log_entry(block_num);`, on the field
`current` of the result: the field after it. -/
def fetch_log_entry (fetch : Bool) (log : Option state_history_log) (block_num : Nat)
    (current : Option bytes) : Option bytes :=
  match fetch, log with
  | true, some l => l.get_log_entry block_num
  | _, _ => current

/-- The body of `if (block_id)` in `send_update(get_blocks_result_v0)`, given the id found. -/
def fill_block (p : plugin) (req : get_blocks_request_v0) (block_id : block_id_type)
    (result : get_blocks_result_v0) : get_blocks_result_v0 :=
  let result := { result with this_block := some ⟨req.start_block_num, block_id⟩ }
  let prev_num := (req.start_block_num + (u32_modulus - 1)) % u32_modulus
  let result :=
    match get_block_id p prev_num with
    | some prev_block_id => { result with prev_block := some ⟨prev_num, prev_block_id⟩ }
    | none => result
  let result :=
    if req.fetch_block then { result with block := get_block p req.start_block_num result.block }
    else result
  let result :=
    { result with
      traces :=
        fetch_log_entry req.fetch_traces p.trace_log req.start_block_num result.traces }
  { result with
    deltas :=
      fetch_log_entry req.fetch_deltas p.chain_state_log req.start_block_num result.deltas }

/-- The block of `send_update(get_blocks_result_v0)` guarded by
`start_block_num <= current && start_block_num < end_block_num`, up to and including
`++current_request->start_block_num`: the result and the request after it. -/
def block_step (p : plugin) (req : get_blocks_request_v0) (result : get_blocks_result_v0) :
    get_blocks_result_v0 × get_blocks_request_v0 :=
  (match get_block_id p req.start_block_num with
    | some block_id => fill_block p req block_id result
    | none => result,
    { req with start_block_num := (req.start_block_num + 1) % u32_modulus })

/-- The overload `send_update(get_blocks_result_v0 result)`. -/
def send_update_result (p : plugin) (result : get_blocks_result_v0) (s : session) : outcome :=
  let s := { s with need_to_send_update := true }
  match s.current_request with
  | none => .done s
  | some req =>
    if !s.send_queue.isEmpty || req.max_messages_in_flight == 0 then .done s
    else
      let result := { result with
        last_irreversible :=
          ⟨p.chain.last_irreversible_block_num, p.chain.last_irreversible_block_id⟩ }
      let current :=
        if req.irreversible_only then result.last_irreversible.block_num
        else result.head.block_num
      let stepped :=
        if req.start_block_num ≤ current ∧ req.start_block_num < req.end_block_num then
          block_step p req result
        else (result, req)
      .done (after_send current
        (send_pushed (.blocks stepped.1) { s with current_request := some stepped.2 }))

/-- The overload `send_update(const block_state_ptr& block_state)`; of the block state only
`block_num` and `id` are read. -/
def send_update_block_state (p : plugin) (block_state : block_position) (s : session) : outcome :=
  let s := { s with need_to_send_update := true }
  match s.current_request with
  | none => .done s
  | some req =>
    if !s.send_queue.isEmpty || req.max_messages_in_flight == 0 then .done s
    else send_update_result p { head := ⟨block_state.block_num, block_state.block_id⟩ } s

/-- The overload `send_update(bool changed = false)`. -/
def send_update (p : plugin) (changed : Bool) (s : session) : outcome :=
  let s := if changed then { s with need_to_send_update := true } else s
  match s.current_request with
  | none => .done s
  | some req =>
    if !s.send_queue.isEmpty || !s.need_to_send_update || req.max_messages_in_flight == 0 then
      .done s
    else
      send_update_result p { head := ⟨p.chain.head_block_num, p.chain.head_block_id⟩ } s

/-- The function `send()`. -/
def send (p : plugin) (s : session) : outcome :=
  if s.sending then .done s
  else
    match s.send_queue with
    | [] => send_update p false s
    | f :: _ => .done (start_write f s)

/-! ## `session`: handlers -/

/-- The completion handler of `async_accept`: `start_read(); send(state_history_plugin_abi)`. -/
def on_async_accept (s : session) : outcome :=
  .done (send_pushed .abi s)

/-- The completion handler of `async_write`: erase the head of `send_queue`, clear `sending`,
`send()`. -/
def on_async_write (p : plugin) (s : session) : outcome :=
  send p { s with send_queue := s.send_queue.tail, sending := false }

/-- The `result` that `operator()(get_status_request_v0&)` builds. -/
def get_status_result (p : plugin) : get_status_result_v0 :=
  let result : get_status_result_v0 :=
    { head := ⟨p.chain.head_block_num, p.chain.head_block_id⟩,
      last_irreversible :=
        ⟨p.chain.last_irreversible_block_num, p.chain.last_irreversible_block_id⟩,
      chain_id := p.chain.get_chain_id }
  let result :=
    match p.trace_log with
    | some log =>
      { result with trace_begin_block := log.begin_block, trace_end_block := log.end_block }
    | none => result
  match p.chain_state_log with
  | some log =>
    { result with
      chain_state_begin_block := log.begin_block, chain_state_end_block := log.end_block }
  | none => result

/-- The handler `operator()(get_status_request_v0&)`. -/
def on_get_status_request (p : plugin) (s : session) : outcome :=
  .done (send_pushed (.status (get_status_result p)) s)

/-- One turn of the loop over `have_positions` in `operator()(get_blocks_request_v0&)`, on
`req.start_block_num`. -/
def reconcile_position (p : plugin) (start_block_num : Nat) (cp : block_position) : Nat :=
  if start_block_num ≤ cp.block_num then start_block_num
  else
    match get_block_id p cp.block_num with
    | none => min start_block_num cp.block_num
    | some id => if id ≠ cp.block_id then min start_block_num cp.block_num else start_block_num

/-- The request after the loop over `have_positions` and `req.have_positions.clear()`: the value
that `current_request = req` installs. -/
def reconcile (p : plugin) (req : get_blocks_request_v0) : get_blocks_request_v0 :=
  { req with
    start_block_num := req.have_positions.foldl (reconcile_position p) req.start_block_num,
    have_positions := [] }

/-- The handler `operator()(get_blocks_request_v0&)`. -/
def on_get_blocks_request (p : plugin) (req : get_blocks_request_v0) (s : session) : outcome :=
  send_update p true { s with current_request := some (reconcile p req) }

/-- The statement `current_request->max_messages_in_flight += req.num_messages`. -/
def add_credit (num_messages : Nat) (req : get_blocks_request_v0) : get_blocks_request_v0 :=
  { req with
    max_messages_in_flight := (req.max_messages_in_flight + num_messages) % u32_modulus }

/-- The handler `operator()(get_blocks_ack_request_v0&)`. -/
def on_get_blocks_ack_request (p : plugin) (num_messages : Nat) (s : session) : outcome :=
  match s.current_request with
  | none => .done s
  | some req => send_update p false { s with current_request := some (add_credit num_messages req) }

/-- The body of the loop of `on_accepted_block` for one session. -/
def on_accepted_block (p : plugin) (block_state : block_position) (s : session) : outcome :=
  let s :=
    match s.current_request with
    | some req =>
      if block_state.block_num < req.start_block_num then
        { s with current_request := some { req with start_block_num := block_state.block_num } }
      else s
    | none => s
  send_update_block_state p block_state s

/-- The loop `for (auto& s : sessions)` of `on_accepted_block`, on the registered sessions in
the order of the map, with the plugin as the two `store` calls leave it: the sessions after the
loop, and whether it ran to its end. `on_accepted_block` catches nothing, so an exception of a
send step would leave the loop and the function before the sessions after that one are
visited. -/
def on_accepted_block_sessions (p : plugin) (block_state : block_position) :
    List session → List session × Bool
  | [] => ([], true)
  | s :: rest =>
    match on_accepted_block p block_state s with
    | .done s' =>
      (s' :: (on_accepted_block_sessions p block_state rest).1,
        (on_accepted_block_sessions p block_state rest).2)
    | .threw s' => (s' :: rest, false)

/-- The function `close()`: the socket is closed and the session leaves the registry. -/
def close (s : session) : session :=
  { s with closed := true }

/-- The wrapper `catch_and_close`: an exception of the handler closes the session. -/
def catch_and_close (o : outcome) : session :=
  match o with
  | .done s => s
  | .threw s => close s

/-! ## Runs of a session -/

/-- What can happen to a session: the completions of its asynchronous operations, the three
requests a read can decode, the notification of an accepted block, and a completion that reports
an error (`on_fail`). -/
inductive event where
  | async_accept
  | get_status_request
  | get_blocks_request (req : get_blocks_request_v0)
  | get_blocks_ack_request (num_messages : Nat)
  | accepted_block (block_state : block_position)
  | async_write
  | fail
deriving DecidableEq, Repr

/-- One event on a session, with the plugin as it is when the event is handled. Completions and
requests go through `callback`, hence `catch_and_close`; `on_accepted_block` is called by the
chain, which would receive its exception, the session staying as it is then. `close()` closes
the socket and takes the session out of the registry: from then on every completion of the
session reports an error and goes to `on_fail`, which closes again, and no accepted block
reaches it, so that no event changes a closed session. A write completes only if one was
started. -/
def step (p : plugin) (e : event) (s : session) : session :=
  if s.closed then s
  else
    match e with
    | .async_accept => catch_and_close (on_async_accept s)
    | .get_status_request => catch_and_close (on_get_status_request p s)
    | .get_blocks_request req => catch_and_close (on_get_blocks_request p req s)
    | .get_blocks_ack_request n => catch_and_close (on_get_blocks_ack_request p n s)
    | .accepted_block b => (on_accepted_block p b s).state
    | .async_write => if s.sending then catch_and_close (on_async_write p s) else s
    | .fail => close s

/-- A run: the events in the order they are handled, each with the plugin of that moment. -/
def run (evs : List (plugin × event)) (s : session) : session :=
  evs.foldl (fun s pe => step pe.1 pe.2 s) s

/-- The session as constructed by `session(plugin)`. -/
def session.init : session := {}

/-! ## Vocabulary of the proofs: what a handler can do to a session -/

/-- The result and the request that `send_update(get_blocks_result_v0)` holds when it calls
`send(result)`, for a session that can send and whose subscription is `req`: from the
assignment of `last_irreversible` to the end of the guarded block. -/
def stepped (p : plugin) (req : get_blocks_request_v0) (result : get_blocks_result_v0) :
    get_blocks_result_v0 × get_blocks_request_v0 :=
  if req.start_block_num ≤
      (if req.irreversible_only then p.chain.last_irreversible_block_num
        else result.head.block_num) ∧
      req.start_block_num < req.end_block_num then
    block_step p req { result with
      last_irreversible :=
        ⟨p.chain.last_irreversible_block_num, p.chain.last_irreversible_block_id⟩ }
  else
    ({ result with
      last_irreversible :=
        ⟨p.chain.last_irreversible_block_num, p.chain.last_irreversible_block_id⟩ }, req)

/-- The outcome `o` of a `send_update` overload on `s` enqueued one block result. -/
def enqueues_result (s : session) (o : outcome) : Prop :=
  ∃ (req req' : get_blocks_request_v0) (res : get_blocks_result_v0) (n : Bool),
    s.current_request = some req ∧ s.send_queue = [] ∧ req.max_messages_in_flight ≠ 0 ∧
    o = .done { send_pushed (.blocks res) s with
      current_request := some { req' with
        max_messages_in_flight := (req'.max_messages_in_flight + (u32_modulus - 1)) % u32_modulus },
      need_to_send_update := n } ∧
    ((req' = req ∧ res.this_block = none) ∨
     (req.start_block_num < req.end_block_num ∧
      req' = { req with start_block_num := (req.start_block_num + 1) % u32_modulus } ∧
      (res.this_block = none ∨ ∃ id, res.this_block = some ⟨req.start_block_num, id⟩)))

/-- What a `send_update` overload can do to `s`: return or throw having changed at most
`need_to_send_update`, or enqueue one block result. -/
def update_outcome (s : session) (o : outcome) : Prop :=
  (∃ b, o = .done { s with need_to_send_update := b }) ∨
  (∃ b, o = .threw { s with need_to_send_update := b }) ∨
  enqueues_result s o

/-- The session on which the handler of `e` calls `send_update` (or, for a write completion,
`send()`): `s` after the assignments that precede that call. -/
def before_update (p : plugin) (e : event) (s : session) : session :=
  match e with
  | .get_blocks_request req => { s with current_request := some (reconcile p req) }
  | .get_blocks_ack_request n =>
    match s.current_request with
    | some req => { s with current_request := some (add_credit n req) }
    | none => s
  | .accepted_block b =>
    match s.current_request with
    | some req =>
      if b.block_num < req.start_block_num then
        { s with current_request := some { req with start_block_num := b.block_num } }
      else s
    | none => s
  | .async_write => { s with send_queue := s.send_queue.tail, sending := false }
  | _ => s

/-! ## Vocabulary of the statements -/

/-- The heights of the claim on fork reconciliation: the requested start, and the height of every
position of `have_positions` below it whose id the server does not have at that height. -/
def mismatched_heights (p : plugin) (req : get_blocks_request_v0) : List Nat :=
  req.start_block_num ::
    (req.have_positions.filter fun cp =>
      decide (cp.block_num < req.start_block_num) &&
        decide (get_block_id p cp.block_num ≠ some cp.block_id)).map block_position.block_num

/-- Whether an event is a `get_blocks_request_v0` or a `get_blocks_ack_request_v0`: the two that
assign `max_messages_in_flight` a value chosen by the client. -/
def event.sets_credit : event → Bool
  | .get_blocks_request _ => true
  | .get_blocks_ack_request _ => true
  | _ => false

/-- The number of `get_blocks_result_v0` frames in a list of frames. -/
def count_blocks_results (fs : List frame) : Nat :=
  fs.countP frame.is_blocks_result

/-- The `this_block` heights of the block results in a list of frames, in the order of the
list. -/
def this_block_heights (fs : List frame) : List Nat :=
  fs.filterMap frame.this_block_num

/-- The cursor that the handler of the event assigns before its send step, when it assigns
one: the reconciled `start_block_num` of a `get_blocks_request_v0`, and the height of an
accepted block that is below the cursor of the subscription. -/
def cursor_set_by (p : plugin) (e : event) (s : session) : Option Nat :=
  match e, s.current_request with
  | .get_blocks_request req, _ => some (reconcile p req).start_block_num
  | .accepted_block b, some cur =>
    if b.block_num < cur.start_block_num then some b.block_num else none
  | _, _ => none

/-- Whether the event, if it assigns the cursor, does not set it below a `this_block` height
that the session has already enqueued. An event leaves a closed session as it is. -/
def keeps_sent_heights (p : plugin) (e : event) (s : session) : Bool :=
  s.closed ||
    match cursor_set_by p e s with
    | some c => (this_block_heights s.pushed).all fun h => decide (h ≤ c)
    | none => true

/-- Whether no event of the run sets the cursor below a height already enqueued, each event
being judged on the session it reaches. -/
def never_rewinds_below_sent : List (plugin × event) → session → Bool
  | [], _ => true
  | pe :: rest, s =>
    keeps_sent_heights pe.1 pe.2 s && never_rewinds_below_sent rest (step pe.1 pe.2 s)

/-- Whether the `end_block_num` of a request is a `uint32_t` value, as it is for every request
decoded from the wire. -/
def event.end_is_u32 : event → Bool
  | .get_blocks_request req => decide (req.end_block_num < u32_modulus)
  | _ => true

/-- The cursor of the subscription, if there is one, is not below any height in `hs`, and its
`end_block_num` is a `uint32_t`. -/
def cursor_at_least (hs : List Nat) (cr : Option get_blocks_request_v0) : Prop :=
  ∀ cur, cr = some cur → cur.end_block_num < u32_modulus ∧ ∀ h ∈ hs, h ≤ cur.start_block_num

/-- The two sessions agree on the fields of the send pump and on its record. -/
def same_pump (a b : session) : Prop :=
  a.sending = b.sending ∧ a.sent_abi = b.sent_abi ∧ a.send_queue = b.send_queue ∧
    a.pushed = b.pushed ∧ a.written = b.written

/-- The invariant of the send pump: every frame pushed has been given to `async_write`, in the
order pushed, except those behind the head of `send_queue`; while `sending`, the head of
`send_queue` is the frame of the last `async_write`; otherwise `send_queue` is empty. -/
def pump_invariant (s : session) : Prop :=
  s.pushed = s.written.map Prod.fst ++ s.send_queue.tail ∧
  (s.sending = true →
    ∃ (f : frame) (rest : List frame) (w : List (frame × Bool)) (b : Bool),
      s.send_queue = f :: rest ∧ s.written = w ++ [(f, b)]) ∧
  (s.sending = false → s.send_queue = [])

/-- The block result that the send step builds for the cursor of `req`, with `head` given. -/
def block_result (p : plugin) (req : get_blocks_request_v0) (hd : block_position) :
    get_blocks_result_v0 :=
  match get_block_id p req.start_block_num with
  | none =>
    { head := hd,
      last_irreversible :=
        ⟨p.chain.last_irreversible_block_num, p.chain.last_irreversible_block_id⟩ }
  | some id =>
    { head := hd,
      last_irreversible :=
        ⟨p.chain.last_irreversible_block_num, p.chain.last_irreversible_block_id⟩,
      this_block := some ⟨req.start_block_num, id⟩,
      prev_block :=
        (get_block_id p ((req.start_block_num + (u32_modulus - 1)) % u32_modulus)).map
          fun prev_id => ⟨(req.start_block_num + (u32_modulus - 1)) % u32_modulus, prev_id⟩,
      block := if req.fetch_block then get_block p req.start_block_num none else none,
      traces := fetch_log_entry req.fetch_traces p.trace_log req.start_block_num none,
      deltas := fetch_log_entry req.fetch_deltas p.chain_state_log req.start_block_num none }

/-- The lookup order as the claim on `get_block_id` words it: the id of the trace log when that
log is enabled and holds the block; otherwise the id of the chain-state log when that log is
enabled and holds the block; otherwise the id of the block the chain returns; absent
otherwise, also when the chain accessor fails. -/
def get_block_id_by_order (p : plugin) (h : Nat) : Option block_id_type :=
  match p.trace_log.filter fun log => decide (log.begin_block ≤ h ∧ h < log.end_block) with
  | some log => some (log.block_ids h)
  | none =>
    match p.chain_state_log.filter fun log =>
        decide (log.begin_block ≤ h ∧ h < log.end_block) with
    | some log => some (log.block_ids h)
    | none =>
      match p.chain.fetch_block_by_number h with
      | .block b => some b.calculate_id
      | .null => none
      | .throws => none

/-- Whether the numbers an event brings are `uint32_t` values: the three counters of a
`get_blocks_request_v0`, the `num_messages` of an ack, the height of an accepted block. -/
def event.is_u32 : event → Bool
  | .get_blocks_request req =>
    decide (req.start_block_num < u32_modulus) && decide (req.end_block_num < u32_modulus) &&
      decide (req.max_messages_in_flight < u32_modulus)
  | .get_blocks_ack_request n => decide (n < u32_modulus)
  | .accepted_block b => decide (b.block_num < u32_modulus)
  | _ => true

/-- The three counters of the subscription, if there is one, are `uint32_t` values. -/
def u32_subscription (s : session) : Prop :=
  ∀ req, s.current_request = some req →
    req.start_block_num < u32_modulus ∧ req.end_block_num < u32_modulus ∧
      req.max_messages_in_flight < u32_modulus

/-- Whether the event is an accepted block or a `get_blocks_request_v0`: the two events whose
handlers set `need_to_send_update`. -/
def event.wakes : event → Bool
  | .accepted_block _ => true
  | .get_blocks_request _ => true
  | _ => false

/-! ## Sample inputs -/

/-- A chain whose head is block 20 and whose last irreversible block is 15; block `n` of
`1..20` has id `100 + n`. -/
def sample_chain : controller :=
  { head_block_num := 20, head_block_id := 120,
    last_irreversible_block_num := 15, last_irreversible_block_id := 115,
    get_chain_id := 7,
    fetch_block_by_number := fun n =>
      if 1 ≤ n ∧ n ≤ 20 then .block ⟨100 + n, some [n]⟩ else .null }

/-- A plugin with no log: block ids come from the chain. -/
def chain_only_plugin : plugin :=
  { chain := sample_chain, trace_log := none, chain_state_log := none }

/-- A plugin whose trace log was enabled late: it holds blocks `18..20` only. -/
def late_trace_plugin : plugin :=
  { chain := sample_chain,
    trace_log := some ⟨18, 21, fun n => 100 + n, fun n => [n, n]⟩,
    chain_state_log := none }

/-- A plugin whose trace log holds blocks `1..20` and whose chain-state log was enabled late
and holds blocks `18..20` only. -/
def late_chain_state_plugin : plugin :=
  { chain := sample_chain,
    trace_log := some ⟨1, 21, fun n => 100 + n, fun n => [n, n]⟩,
    chain_state_log := some ⟨18, 21, fun n => 100 + n, fun n => [n, n, n]⟩ }

/-- A session after the handshake, whose greeting has been written: nothing queued, no
subscription. -/
def greeted_session : session :=
  run [(chain_only_plugin, .async_accept), (chain_only_plugin, .async_write)] session.init

/-- A session that follows the head: it subscribed from block 21 on a chain whose head is 20,
was sent one head-only result, and that frame has been written. -/
def tail_session : session :=
  run [(chain_only_plugin, .get_blocks_request ⟨21, 100, 3, [], false, false, false, false⟩),
    (chain_only_plugin, .async_write)] greeted_session

/-- A session whose subscription asked for the largest credit, `2^32 - 1`; one block result is
being written, so `2^32 - 2` is left. -/
def full_credit_session : session :=
  step chain_only_plugin
    (.get_blocks_request ⟨1, 5, 4294967295, [], false, false, false, false⟩) greeted_session

/-- A subscription to blocks from height 10, with traces. -/
def traces_request : get_blocks_request_v0 :=
  ⟨10, 100, 5, [], false, false, true, false⟩

/-- A greeted session in which `traces_request` has just been installed: the session on which
the request handler runs the send step. -/
def traces_session : session :=
  { greeted_session with current_request := some traces_request }

/-- A subscription to blocks from height 10, with traces and deltas. -/
def traces_deltas_request : get_blocks_request_v0 :=
  ⟨10, 100, 5, [], false, false, true, true⟩

/-- A greeted session in which `traces_deltas_request` has just been installed. -/
def traces_deltas_session : session :=
  { greeted_session with current_request := some traces_deltas_request }

/-- A session that has just subscribed to blocks `1..4` with credit 3: the block result for
height 1 is being written, and credit 2 is left. -/
def streaming_session : session :=
  step chain_only_plugin (.get_blocks_request ⟨1, 5, 3, [], false, false, false, false⟩)
    greeted_session

/-- Three write completions and two accepted blocks, with no request between them. -/
def quiet_events : List (plugin × event) :=
  [(chain_only_plugin, .async_write), (chain_only_plugin, .accepted_block ⟨20, 120⟩),
    (chain_only_plugin, .async_write), (chain_only_plugin, .accepted_block ⟨20, 120⟩),
    (chain_only_plugin, .async_write)]

/-- Acks, write completions and a status request, with no accepted block and no
`get_blocks_request_v0` among them. -/
def ack_events : List (plugin × event) :=
  [(chain_only_plugin, .get_blocks_ack_request 5), (chain_only_plugin, .async_write),
    (chain_only_plugin, .get_blocks_ack_request 7), (chain_only_plugin, .get_status_request),
    (chain_only_plugin, .async_write), (chain_only_plugin, .get_blocks_ack_request 1)]

/-- A session that subscribed from block 25 on a chain whose head is 20, was sent a head-only
result, and that frame has been written: its cursor is beyond the head. -/
def ahead_session : session :=
  run [(chain_only_plugin, .get_blocks_request ⟨25, 100, 3, [], false, false, false, false⟩),
    (chain_only_plugin, .async_write)] greeted_session

/-- The chain one block later: the head is block 21 and the last irreversible block is 16. -/
def advanced_chain : controller :=
  { head_block_num := 21, head_block_id := 121,
    last_irreversible_block_num := 16, last_irreversible_block_id := 116,
    get_chain_id := 7,
    fetch_block_by_number := fun n =>
      if 1 ≤ n ∧ n ≤ 21 then .block ⟨100 + n, some [n]⟩ else .null }

/-- The plugin with the late trace log, after block 21 was stored: the log holds `18..21`. -/
def advanced_trace_plugin : plugin :=
  { chain := advanced_chain,
    trace_log := some ⟨18, 22, fun n => 100 + n, fun n => [n, n]⟩,
    chain_state_log := none }

/-- A session that follows the last irreversible block, with traces: it subscribed from block
16 when the last irreversible block was 15, was sent a head-only result, and that frame has
been written. -/
def irreversible_traces_session : session :=
  run [(late_trace_plugin, .get_blocks_request ⟨16, 100, 5, [], true, false, true, false⟩),
    (late_trace_plugin, .async_write)] greeted_session

/-- The chain after a fork at the head: block 20 has been replaced by a block with id 220. -/
def forked_head_chain : controller :=
  { head_block_num := 20, head_block_id := 220,
    last_irreversible_block_num := 15, last_irreversible_block_id := 115,
    get_chain_id := 7,
    fetch_block_by_number := fun n =>
      if 1 ≤ n ∧ n ≤ 19 then .block ⟨100 + n, some [n]⟩
      else if n = 20 then .block ⟨220, some [n, n]⟩ else .null }

/-- A plugin with no log, on the chain after the fork at the head. -/
def forked_head_plugin : plugin :=
  { chain := forked_head_chain, trace_log := none, chain_state_log := none }

/-- A run with a fork at the head: handshake, a subscription from block 19, the write
completions that deliver blocks 19 and 20, then the accepted block 20 of the other fork, which
sets the cursor back from 21 to 20. -/
def head_fork_events : List (plugin × event) :=
  [(chain_only_plugin, .async_accept), (chain_only_plugin, .async_write),
    (chain_only_plugin, .get_blocks_request ⟨19, 100, 5, [], false, false, false, false⟩),
    (chain_only_plugin, .async_write), (chain_only_plugin, .async_write),
    (forked_head_plugin, .accepted_block ⟨20, 220⟩)]

/-- A run in which the client subscribes again from an earlier block: handshake, a
subscription from block 5, a subscription from block 3, a write completion. -/
def resubscribe_events : List (plugin × event) :=
  [(chain_only_plugin, .async_accept), (chain_only_plugin, .async_write),
    (chain_only_plugin, .get_blocks_request ⟨5, 10, 5, [], false, false, false, false⟩),
    (chain_only_plugin, .get_blocks_request ⟨3, 10, 5, [], false, false, false, false⟩),
    (chain_only_plugin, .async_write)]

/-! ## The block result -/

theorem fetch_log_entry_some_iff (fetch : Bool) (log : Option state_history_log)
    (block_num : Nat) (entry : bytes) :
    fetch_log_entry fetch log block_num none = some entry ↔
      (fetch = true ∧ ∃ l, log = some l ∧
        (l.begin_block ≤ block_num ∧ block_num < l.end_block) ∧ entry = l.entries block_num) := by
  unfold fetch_log_entry
  cases fetch
  · simp
  · cases log with
    | none => simp
    | some l =>
      simp only [state_history_log.get_log_entry]
      by_cases h : l.begin_block ≤ block_num ∧ block_num < l.end_block
      · simp [h, eq_comm]
      · simp [h]

theorem fill_block_eq (p : plugin) (req : get_blocks_request_v0) (id : block_id_type)
    (result : get_blocks_result_v0) :
    fill_block p req id result =
      { head := result.head,
        last_irreversible := result.last_irreversible,
        this_block := some ⟨req.start_block_num, id⟩,
        prev_block :=
          match get_block_id p ((req.start_block_num + (u32_modulus - 1)) % u32_modulus) with
          | some prev_block_id =>
            some ⟨(req.start_block_num + (u32_modulus - 1)) % u32_modulus, prev_block_id⟩
          | none => result.prev_block,
        block :=
          if req.fetch_block then get_block p req.start_block_num result.block
          else result.block,
        traces :=
          fetch_log_entry req.fetch_traces p.trace_log req.start_block_num result.traces,
        deltas :=
          fetch_log_entry req.fetch_deltas p.chain_state_log req.start_block_num
            result.deltas } := by
  unfold fill_block
  simp only
  generalize get_block_id p ((req.start_block_num + (u32_modulus - 1)) % u32_modulus) = prev
  cases req.fetch_block <;> cases prev <;> rfl

theorem block_step_eq (p : plugin) (req : get_blocks_request_v0) (hd : block_position) :
    block_step p req { head := hd, last_irreversible :=
      ⟨p.chain.last_irreversible_block_num, p.chain.last_irreversible_block_id⟩ } =
      (block_result p req hd,
        { req with start_block_num := (req.start_block_num + 1) % u32_modulus }) := by
  unfold block_step block_result
  cases hid : get_block_id p req.start_block_num with
  | none => rfl
  | some id =>
    simp only [fill_block_eq]
    congr 2
    cases get_block_id p ((req.start_block_num + (u32_modulus - 1)) % u32_modulus) <;> rfl

/-! ## The send pump and the `send_update` overloads -/

theorem send_pushed_eq_send (p : plugin) (f : frame) (s : session) :
    send p (push_back f s) = .done (send_pushed f s) := by
  unfold send send_pushed
  cases hs : s.sending
  · cases hq : s.send_queue <;> simp [push_back, hs, hq]
  · simp [push_back, hs]

theorem send_pushed_fields (f : frame) (s : session) :
    (send_pushed f s).send_queue = s.send_queue ++ [f] ∧
    (send_pushed f s).pushed = s.pushed ++ [f] ∧
    (send_pushed f s).current_request = s.current_request ∧
    (send_pushed f s).need_to_send_update = s.need_to_send_update ∧
    (send_pushed f s).closed = s.closed ∧
    (send_pushed f s).sending = true := by
  unfold send_pushed
  cases hs : s.sending <;> simp [push_back, start_write, hs]

theorem send_pushed_written (f : frame) (s : session) :
    (send_pushed f s).written =
      if s.sending then s.written else s.written ++ [((s.send_queue ++ [f]).head (by simp), s.sent_abi)] := by
  unfold send_pushed
  cases hs : s.sending <;> simp [push_back, start_write, hs]

theorem after_send_send_pushed (cur : Nat) (f : frame) (s : session) (req : get_blocks_request_v0)
    (b : Bool) :
    after_send cur (send_pushed f { s with current_request := some req, need_to_send_update := b }) =
      { send_pushed f s with
        current_request := some { req with
          max_messages_in_flight := (req.max_messages_in_flight + (u32_modulus - 1)) % u32_modulus },
        need_to_send_update :=
          decide (req.start_block_num ≤ cur) && decide (req.start_block_num < req.end_block_num) } := by
  unfold after_send send_pushed
  cases hs : s.sending <;> simp [push_back, start_write, hs]

theorem block_step_fields (p : plugin) (req : get_blocks_request_v0)
    (result : get_blocks_result_v0) :
    (block_step p req result).2 =
      { req with start_block_num := (req.start_block_num + 1) % u32_modulus } ∧
    (block_step p req result).1.this_block = (match get_block_id p req.start_block_num with
      | some id => some ⟨req.start_block_num, id⟩
      | none => result.this_block) ∧
    (block_step p req result).1.head = result.head ∧
    (block_step p req result).1.last_irreversible = result.last_irreversible := by
  unfold block_step
  cases hid : get_block_id p req.start_block_num with
  | none => exact ⟨rfl, rfl, rfl, rfl⟩
  | some id =>
    have h := fill_block_eq p req id result
    refine ⟨rfl, ?_, ?_, ?_⟩
    · exact (congrArg get_blocks_result_v0.this_block h :)
    · exact (congrArg get_blocks_result_v0.head h :)
    · exact (congrArg get_blocks_result_v0.last_irreversible h :)

theorem send_pushed_need (f : frame) (s : session) (b : Bool) :
    send_pushed f { s with need_to_send_update := b } =
      { send_pushed f s with need_to_send_update := b } := by
  unfold send_pushed
  cases hs : s.sending <;> simp [push_back, start_write, hs]

theorem send_update_result_eq (p : plugin) (result : get_blocks_result_v0) (s : session)
    (req : get_blocks_request_v0) (hq : s.send_queue = []) (hc : s.current_request = some req)
    (hm : req.max_messages_in_flight ≠ 0) :
    send_update_result p result s =
      .done { send_pushed (.blocks (stepped p req result).1) s with
        current_request := some { (stepped p req result).2 with
          max_messages_in_flight :=
            ((stepped p req result).2.max_messages_in_flight + (u32_modulus - 1)) %
              u32_modulus },
        need_to_send_update :=
          decide ((stepped p req result).2.start_block_num ≤
            (if req.irreversible_only then p.chain.last_irreversible_block_num
              else result.head.block_num)) &&
          decide ((stepped p req result).2.start_block_num <
            (stepped p req result).2.end_block_num) } := by
  have hdef : send_update_result p result s =
      .done (after_send (if req.irreversible_only then p.chain.last_irreversible_block_num
            else result.head.block_num)
        (send_pushed (.blocks (stepped p req result).1)
          { s with current_request := some (stepped p req result).2,
                   need_to_send_update := true })) := by
    unfold send_update_result
    simp only [hc]
    have hg : (!({ s with need_to_send_update := true } : session).send_queue.isEmpty ||
        req.max_messages_in_flight == 0) = false := by simp [hq, hm]
    rw [if_neg (by simp [hg])]
    rfl
  rw [hdef]
  exact congrArg outcome.done (after_send_send_pushed _ _ s _ true)

theorem send_update_result_idle (p : plugin) (r : get_blocks_result_v0) (s : session)
    (h : s.current_request = none ∨ s.send_queue ≠ [] ∨
      ∃ req, s.current_request = some req ∧ req.max_messages_in_flight = 0) :
    send_update_result p r s = .done { s with need_to_send_update := true } := by
  unfold send_update_result
  rcases h with h | h | ⟨req, h, hm⟩
  · simp [h]
  · simp only
    split
    · rfl
    · simp [h]
  · simp [h, hm]

theorem send_update_result_returns (p : plugin) (r : get_blocks_result_v0) (s : session) :
    ∃ s', send_update_result p r s = .done s' := by
  unfold send_update_result
  simp only
  split
  · exact ⟨_, rfl⟩
  · split <;> exact ⟨_, rfl⟩

theorem stepped_head_only (p : plugin) (req : get_blocks_request_v0)
    (result : get_blocks_result_v0)
    (h : ¬ (req.start_block_num ≤
        (if req.irreversible_only then p.chain.last_irreversible_block_num
          else result.head.block_num) ∧
      req.start_block_num < req.end_block_num)) :
    stepped p req result =
      ({ result with
        last_irreversible :=
          ⟨p.chain.last_irreversible_block_num, p.chain.last_irreversible_block_id⟩ }, req) := by
  unfold stepped
  rw [if_neg h]

theorem stepped_block (p : plugin) (req : get_blocks_request_v0) (hd : block_position)
    (h : req.start_block_num ≤
        (if req.irreversible_only then p.chain.last_irreversible_block_num
          else hd.block_num) ∧
      req.start_block_num < req.end_block_num) :
    stepped p req { head := hd } =
      (block_result p req hd,
        { req with start_block_num := (req.start_block_num + 1) % u32_modulus }) := by
  unfold stepped
  rw [if_pos h]
  exact block_step_eq p req hd

theorem stepped_request (p : plugin) (req : get_blocks_request_v0)
    (result : get_blocks_result_v0) (hr : result.this_block = none) :
    ((stepped p req result).2 = req ∧ (stepped p req result).1.this_block = none) ∨
    (req.start_block_num < req.end_block_num ∧
      (stepped p req result).2 =
        { req with start_block_num := (req.start_block_num + 1) % u32_modulus } ∧
      ((stepped p req result).1.this_block = none ∨
        ∃ id, (stepped p req result).1.this_block = some ⟨req.start_block_num, id⟩)) := by
  by_cases hcond : req.start_block_num ≤
      (if req.irreversible_only then p.chain.last_irreversible_block_num
        else result.head.block_num) ∧
      req.start_block_num < req.end_block_num
  · right
    have hf := block_step_fields p req { result with last_irreversible :=
      ⟨p.chain.last_irreversible_block_num, p.chain.last_irreversible_block_id⟩ }
    have hs : stepped p req result = block_step p req { result with last_irreversible :=
        ⟨p.chain.last_irreversible_block_num, p.chain.last_irreversible_block_id⟩ } := by
      unfold stepped
      rw [if_pos hcond]
    rw [hs]
    refine ⟨hcond.2, hf.1, ?_⟩
    rw [hf.2.1]
    cases hid : get_block_id p req.start_block_num with
    | none => left; exact hr
    | some id => right; exact ⟨id, rfl⟩
  · left
    rw [stepped_head_only p req result hcond]
    exact ⟨rfl, hr⟩

theorem send_update_result_cases (p : plugin) (r : get_blocks_result_v0) (s : session)
    (hr : r.this_block = none) :
    send_update_result p r s = .done { s with need_to_send_update := true } ∨
    send_update_result p r s = .threw { s with need_to_send_update := true } ∨
    enqueues_result s (send_update_result p r s) := by
  have hcr : s.current_request = none ∨ ∃ req, s.current_request = some req := by
    cases s.current_request with
    | none => exact Or.inl rfl
    | some req => exact Or.inr ⟨req, rfl⟩
  rcases hcr with hc | ⟨req, hc⟩
  · exact Or.inl (send_update_result_idle p r s (Or.inl hc))
  · by_cases hq : s.send_queue = []
    swap
    · exact Or.inl (send_update_result_idle p r s (Or.inr (Or.inl hq)))
    by_cases hm : req.max_messages_in_flight = 0
    · exact Or.inl (send_update_result_idle p r s (Or.inr (Or.inr ⟨req, hc, hm⟩)))
    right; right
    exact ⟨req, (stepped p req r).2, (stepped p req r).1, _, hc, hq, hm,
      send_update_result_eq p r s req hq hc hm, stepped_request p req r hr⟩

theorem enqueues_result_need (s : session) (b : Bool) (o : outcome)
    (h : enqueues_result { s with need_to_send_update := b } o) : enqueues_result s o := by
  obtain ⟨req, req', res, n, h1, h2, h3, h4, h5⟩ := h
  refine ⟨req, req', res, n, h1, h2, h3, ?_, h5⟩
  rw [h4, send_pushed_need]

theorem update_outcome_need (s : session) (b : Bool) (o : outcome)
    (h : update_outcome { s with need_to_send_update := b } o) : update_outcome s o := by
  rcases h with ⟨c, h⟩ | ⟨c, h⟩ | h
  · exact Or.inl ⟨c, h⟩
  · exact Or.inr (Or.inl ⟨c, h⟩)
  · exact Or.inr (Or.inr (enqueues_result_need s b o h))

theorem update_outcome_self (s : session) : update_outcome s (.done s) :=
  Or.inl ⟨s.need_to_send_update, rfl⟩

theorem send_update_result_outcome (p : plugin) (r : get_blocks_result_v0) (s : session)
    (hr : r.this_block = none) : update_outcome s (send_update_result p r s) := by
  rcases send_update_result_cases p r s hr with h | h | h
  · exact Or.inl ⟨true, h⟩
  · exact Or.inr (Or.inl ⟨true, h⟩)
  · exact Or.inr (Or.inr h)

theorem send_update_outcome (p : plugin) (changed : Bool) (s : session) :
    update_outcome s (send_update p changed s) := by
  have key : ∀ s0 : session, update_outcome s0
      (match s0.current_request with
      | none => .done s0
      | some req =>
        if !s0.send_queue.isEmpty || !s0.need_to_send_update || req.max_messages_in_flight == 0 then
          .done s0
        else
          send_update_result p { head := ⟨p.chain.head_block_num, p.chain.head_block_id⟩ } s0) := by
    intro s0
    split
    · exact update_outcome_self s0
    · split
      · exact update_outcome_self s0
      · exact send_update_result_outcome p _ s0 rfl
  unfold send_update
  cases changed
  · exact key s
  · exact update_outcome_need s true _ (key _)

theorem send_update_block_state_outcome (p : plugin) (b : block_position) (s : session) :
    update_outcome s (send_update_block_state p b s) := by
  unfold send_update_block_state
  apply update_outcome_need s true
  simp only
  split
  · exact update_outcome_self _
  · split
    · exact update_outcome_self _
    · exact send_update_result_outcome p _ _ rfl

theorem send_cases (p : plugin) (s : session) (hs : s.sending = false) :
    (∃ f rest, s.send_queue = f :: rest ∧ send p s = .done (start_write f s)) ∨
    (s.send_queue = [] ∧ update_outcome s (send p s)) := by
  unfold send
  rw [hs]
  cases hq : s.send_queue with
  | nil => right; exact ⟨rfl, by simpa using send_update_outcome p false s⟩
  | cons f rest => left; exact ⟨f, rest, rfl, by simp⟩

theorem step_cases (p : plugin) (e : event) (s : session) :
    step p e s = s ∨ step p e s = close s ∨
    (∃ f, f.is_blocks_result = false ∧ step p e s = send_pushed f s) ∨
    (∃ f rest, e = .async_write ∧ s.sending = true ∧ s.send_queue.tail = f :: rest ∧
      step p e s = start_write f (before_update p e s)) ∨
    (∃ o, update_outcome (before_update p e s) o ∧
      (step p e s = o.state ∨ step p e s = close o.state) ∧
      (e = .async_write → s.sending = true ∧ s.send_queue.tail = [])) := by
  unfold step
  by_cases hc : s.closed = true
  · left; simp [hc]
  rw [if_neg hc]
  have wrap : ∀ o : outcome, catch_and_close o = o.state ∨ catch_and_close o = close o.state := by
    intro o; cases o <;> simp [catch_and_close, outcome.state]
  cases e with
  | async_accept =>
    right; right; left; exact ⟨.abi, rfl, rfl⟩
  | get_status_request =>
    right; right; left; exact ⟨.status (get_status_result p), rfl, rfl⟩
  | get_blocks_request req =>
    right; right; right; right
    exact ⟨_, send_update_outcome p true _, wrap _, by simp⟩
  | get_blocks_ack_request n =>
    simp only [on_get_blocks_ack_request]
    cases hr : s.current_request with
    | none => left; rfl
    | some req =>
      right; right; right; right
      refine ⟨send_update p false { s with current_request := some (add_credit n req) }, ?_, wrap _,
        by simp⟩
      simp only [before_update, hr]
      exact send_update_outcome p false _
  | accepted_block b =>
    right; right; right; right
    exact ⟨_, send_update_block_state_outcome p b _, Or.inl rfl, by simp⟩
  | async_write =>
    simp only
    by_cases hs : s.sending = true
    swap
    · left; simp [hs]
    rw [if_pos hs]
    rcases send_cases p { s with send_queue := s.send_queue.tail, sending := false } rfl with
      ⟨f, rest, h1, h2⟩ | ⟨h1, h2⟩
    · right; right; right; left
      refine ⟨f, rest, trivial, hs, h1, ?_⟩
      simp only [on_async_write, h2, catch_and_close, before_update]
    · right; right; right; right
      exact ⟨_, h2, wrap _, fun _ => ⟨hs, h1⟩⟩
  | fail => right; left; rfl

/-! ## What one event does to the subscription and to the frames pushed -/

theorem before_update_pushed (p : plugin) (e : event) (s : session) :
    (before_update p e s).pushed = s.pushed := by
  unfold before_update
  cases e <;> simp only <;> repeat' split
  all_goals rfl

theorem update_outcome_effect (s : session) (o : outcome) (h : update_outcome s o) :
    (o.state.current_request = s.current_request ∧ o.state.pushed = s.pushed) ∨
    ∃ (req req' : get_blocks_request_v0) (res : get_blocks_result_v0),
      s.current_request = some req ∧ req.max_messages_in_flight ≠ 0 ∧
      o.state.pushed = s.pushed ++ [.blocks res] ∧
      o.state.current_request = some req' ∧
      req'.max_messages_in_flight =
        (req.max_messages_in_flight + (u32_modulus - 1)) % u32_modulus ∧
      req'.end_block_num = req.end_block_num ∧
      ((req'.start_block_num = req.start_block_num ∧ res.this_block = none) ∨
       (req.start_block_num < req.end_block_num ∧
        req'.start_block_num = (req.start_block_num + 1) % u32_modulus ∧
        (res.this_block = none ∨ ∃ id, res.this_block = some ⟨req.start_block_num, id⟩))) := by
  rcases h with ⟨b, h⟩ | ⟨b, h⟩ | ⟨req, req', res, n, h1, h2, h3, h4, h5⟩
  · left; rw [h]; exact ⟨rfl, rfl⟩
  · left; rw [h]; exact ⟨rfl, rfl⟩
  · right
    refine ⟨req, _, res, h1, h3, ?_, by rw [h4]; rfl, ?_, ?_, ?_⟩
    · rw [h4]; exact (send_pushed_fields _ s).2.1
    · rcases h5 with ⟨e, _⟩ | ⟨_, e, _⟩ <;> rw [e]
    · rcases h5 with ⟨e, _⟩ | ⟨_, e, _⟩ <;> rw [e]
    · rcases h5 with ⟨e, h6⟩ | ⟨hlt, e, h6⟩
      · left; exact ⟨by rw [e], h6⟩
      · right; exact ⟨hlt, by rw [e], h6⟩

theorem step_effect (p : plugin) (e : event) (s : session) :
    (∃ fs : List frame, (∀ f ∈ fs, f.is_blocks_result = false) ∧
      (step p e s).pushed = s.pushed ++ fs ∧
      ((step p e s).current_request = s.current_request ∨
        (step p e s).current_request = (before_update p e s).current_request)) ∨
    ∃ (req req' : get_blocks_request_v0) (res : get_blocks_result_v0),
      (before_update p e s).current_request = some req ∧ req.max_messages_in_flight ≠ 0 ∧
      (step p e s).pushed = s.pushed ++ [.blocks res] ∧
      (step p e s).current_request = some req' ∧
      req'.max_messages_in_flight =
        (req.max_messages_in_flight + (u32_modulus - 1)) % u32_modulus ∧
      req'.end_block_num = req.end_block_num ∧
      ((req'.start_block_num = req.start_block_num ∧ res.this_block = none) ∨
       (req.start_block_num < req.end_block_num ∧
        req'.start_block_num = (req.start_block_num + 1) % u32_modulus ∧
        (res.this_block = none ∨ ∃ id, res.this_block = some ⟨req.start_block_num, id⟩))) := by
  rcases step_cases p e s with h | h | ⟨f, hf, h⟩ | ⟨f, rest, he, hs, hq, h⟩ | ⟨o, ho, h, _⟩
  · left; exact ⟨[], by simp, by rw [h]; simp, Or.inl (by rw [h])⟩
  · left; exact ⟨[], by simp, by rw [h]; simp [close], Or.inl (by rw [h]; rfl)⟩
  · left
    refine ⟨[f], by simpa using hf, ?_, Or.inl ?_⟩
    · rw [h]; exact (send_pushed_fields f s).2.1
    · rw [h]; exact (send_pushed_fields f s).2.2.1
  · left
    refine ⟨[], by simp, ?_, Or.inr ?_⟩
    · rw [h]; simp [start_write, before_update_pushed]
    · rw [h]; rfl
  · have hst : (step p e s).current_request = o.state.current_request ∧
        (step p e s).pushed = o.state.pushed := by
      rcases h with h | h <;> rw [h] <;> exact ⟨rfl, rfl⟩
    rcases update_outcome_effect _ o ho with ⟨h1, h2⟩ | ⟨req, req', res, h1, h2, h3, h4, h5⟩
    · left
      refine ⟨[], by simp, ?_, Or.inr ?_⟩
      · rw [hst.2, h2, before_update_pushed]; simp
      · rw [hst.1, h1]
    · right
      refine ⟨req, req', res, h1, h2, ?_, ?_, h5⟩
      · rw [hst.2, h3, before_update_pushed]
      · rw [hst.1, h4]

/-! ## What one event does to the send pump -/

theorem same_pump_refl (s : session) : same_pump s s := ⟨rfl, rfl, rfl, rfl, rfl⟩

theorem same_pump_trans {a b c : session} (h1 : same_pump a b) (h2 : same_pump b c) :
    same_pump a c :=
  ⟨h1.1.trans h2.1, h1.2.1.trans h2.2.1, h1.2.2.1.trans h2.2.2.1, h1.2.2.2.1.trans h2.2.2.2.1,
    h1.2.2.2.2.trans h2.2.2.2.2⟩

theorem send_pushed_sent_abi (f : frame) (s : session) :
    (send_pushed f s).sent_abi = (s.sent_abi || !s.sending) := by
  unfold send_pushed
  cases hs : s.sending <;> simp [push_back, start_write, hs]

theorem send_pushed_written_cases (f : frame) (s : session) :
    (s.sending = true ∧ (send_pushed f s).written = s.written) ∨
    (s.sending = false ∧ ∃ g, (s.send_queue ++ [f]).head? = some g ∧
      (send_pushed f s).written = s.written ++ [(g, s.sent_abi)]) := by
  unfold send_pushed
  cases hs : s.sending
  · right
    refine ⟨rfl, (s.send_queue ++ [f]).head (by simp), ?_, ?_⟩
    · rw [List.head?_eq_head]
    · simp [push_back, start_write, hs]
  · left; simp [push_back, hs]

theorem same_pump_send_pushed (f : frame) {a b : session} (h : same_pump a b) :
    same_pump (send_pushed f a) (send_pushed f b) := by
  obtain ⟨h1, h2, h3, h4, h5⟩ := h
  have ha := send_pushed_fields f a
  have hb := send_pushed_fields f b
  refine ⟨by rw [ha.2.2.2.2.2, hb.2.2.2.2.2], ?_, by rw [ha.1, hb.1, h3],
    by rw [ha.2.1, hb.2.1, h4], ?_⟩
  · rw [send_pushed_sent_abi, send_pushed_sent_abi, h1, h2]
  · rw [send_pushed_written, send_pushed_written]
    simp only [h1, h2, h3, h5]

theorem update_outcome_pump (s : session) (o : outcome) (h : update_outcome s o) :
    same_pump o.state s ∨
    ∃ f, s.send_queue = [] ∧ same_pump o.state (send_pushed f s) := by
  rcases h with ⟨b, h⟩ | ⟨b, h⟩ | ⟨req, req', res, n, h1, h2, h3, h4, h5⟩
  · left; rw [h]; exact same_pump_refl _
  · left; rw [h]; exact same_pump_refl _
  · right; exact ⟨.blocks res, h2, by rw [h4]; exact same_pump_refl _⟩

theorem before_update_pump (p : plugin) (e : event) (s : session) (he : e ≠ .async_write) :
    same_pump (before_update p e s) s := by
  unfold before_update
  cases e with
  | async_write => exact absurd rfl he
  | get_blocks_request req => exact same_pump_refl _
  | get_blocks_ack_request n => simp only; split <;> exact same_pump_refl _
  | accepted_block b =>
    simp only
    split
    · split <;> exact same_pump_refl _
    · exact same_pump_refl _
  | async_accept => exact same_pump_refl _
  | get_status_request => exact same_pump_refl _
  | fail => exact same_pump_refl _

theorem step_pump (p : plugin) (e : event) (s : session) :
    same_pump (step p e s) s ∨
    (∃ f, same_pump (step p e s) (send_pushed f s)) ∨
    (e = .async_write ∧ s.sending = true ∧
      ((s.send_queue.tail = [] ∧
          same_pump (step p e s) { s with send_queue := s.send_queue.tail, sending := false }) ∨
       (∃ f, s.send_queue.tail = [] ∧ same_pump (step p e s)
          (send_pushed f { s with send_queue := s.send_queue.tail, sending := false })) ∨
       (∃ f rest, s.send_queue.tail = f :: rest ∧ same_pump (step p e s)
          (start_write f { s with send_queue := s.send_queue.tail, sending := false })))) := by
  rcases step_cases p e s with h | h | ⟨f, _, h⟩ | ⟨f, rest, he, hs, hq, h⟩ | ⟨o, ho, h, hw⟩
  · left; rw [h]; exact same_pump_refl _
  · left; rw [h]; exact same_pump_refl _
  · right; left; exact ⟨f, by rw [h]; exact same_pump_refl _⟩
  · right; right
    refine ⟨he, hs, Or.inr (Or.inr ⟨f, rest, hq, ?_⟩)⟩
    rw [h, he]; exact same_pump_refl _
  · have hst : same_pump (step p e s) o.state := by
      rcases h with h | h <;> rw [h] <;> exact same_pump_refl _
    by_cases he : e = .async_write
    · obtain ⟨hs, hq⟩ := hw he
      right; right
      refine ⟨he, hs, ?_⟩
      subst he
      rcases update_outcome_pump _ o ho with h1 | ⟨f, _, h1⟩
      · left; exact ⟨hq, same_pump_trans hst h1⟩
      · right; left; exact ⟨f, hq, same_pump_trans hst h1⟩
    · have hb := before_update_pump p e s he
      rcases update_outcome_pump _ o ho with h1 | ⟨f, _, h1⟩
      · left; exact same_pump_trans hst (same_pump_trans h1 hb)
      · right; left
        exact ⟨f, same_pump_trans hst (same_pump_trans h1 (same_pump_send_pushed f hb))⟩

/-! ## The send step, when it runs -/

theorem send_update_eq (p : plugin) (changed : Bool) (s : session) (req : get_blocks_request_v0)
    (hq : s.send_queue = []) (hc : s.current_request = some req)
    (hm : req.max_messages_in_flight ≠ 0) (hn : (changed || s.need_to_send_update) = true) :
    send_update p changed s =
      send_update_result p { head := ⟨p.chain.head_block_num, p.chain.head_block_id⟩ } s := by
  have hsame : ∀ (r : get_blocks_result_v0) (b : Bool),
      send_update_result p r { s with need_to_send_update := b } = send_update_result p r s := by
    intro r b; rfl
  unfold send_update
  cases changed
  · simp only [Bool.false_or] at hn
    simp [hc, hq, hm, hn]
  · simp only [if_true]
    split
    · rename_i h
      have h' : s.current_request = none := h
      rw [hc] at h'
      exact absurd h' (by simp)
    · rename_i r h
      have h' : s.current_request = some r := h
      rw [hc] at h'
      have e : r = req := (Option.some.inj h').symm
      subst e
      rw [if_neg (by simp [hq, hm])]
      exact hsame _ true

theorem send_update_block_state_eq (p : plugin) (b : block_position) (s : session)
    (req : get_blocks_request_v0) (hq : s.send_queue = []) (hc : s.current_request = some req)
    (hm : req.max_messages_in_flight ≠ 0) :
    send_update_block_state p b s = send_update_result p { head := b } s := by
  unfold send_update_block_state
  simp only
  split
  · rename_i h
    have h' : s.current_request = none := h
    rw [hc] at h'
    exact absurd h' (by simp)
  · rename_i r h
    have h' : s.current_request = some r := h
    rw [hc] at h'
    have e : r = req := (Option.some.inj h').symm
    subst e
    rw [if_neg (by simp [hq, hm])]
    rfl

theorem send_update_result_block (p : plugin) (s : session) (req : get_blocks_request_v0)
    (hd : block_position) (hq : s.send_queue = []) (hc : s.current_request = some req)
    (hm : req.max_messages_in_flight ≠ 0)
    (hcur : req.start_block_num ≤ (if req.irreversible_only then
        p.chain.last_irreversible_block_num else hd.block_num) ∧
      req.start_block_num < req.end_block_num) :
    send_update_result p { head := hd } s =
      .done { send_pushed (.blocks (block_result p req hd)) s with
        current_request := some { req with
          start_block_num := (req.start_block_num + 1) % u32_modulus,
          max_messages_in_flight :=
            (req.max_messages_in_flight + (u32_modulus - 1)) % u32_modulus },
        need_to_send_update :=
          decide ((req.start_block_num + 1) % u32_modulus ≤ (if req.irreversible_only then
            p.chain.last_irreversible_block_num else hd.block_num)) &&
          decide ((req.start_block_num + 1) % u32_modulus < req.end_block_num) } := by
  have heq := send_update_result_eq p { head := hd } s req hq hc hm
  rw [stepped_block p req hd hcur] at heq
  exact heq

theorem send_update_block_state_returns (p : plugin) (b : block_position) (s : session) :
    ∃ s', send_update_block_state p b s = .done s' := by
  unfold send_update_block_state
  simp only
  split
  · exact ⟨_, rfl⟩
  · split
    · exact ⟨_, rfl⟩
    · exact send_update_result_returns p _ _

theorem on_accepted_block_returns (p : plugin) (b : block_position) (s : session) :
    ∃ s', on_accepted_block p b s = .done s' :=
  send_update_block_state_returns p b _

/-! ## Fork reconciliation -/

theorem reconcile_position_le (p : plugin) (c : Nat) (cp : block_position) :
    reconcile_position p c cp ≤ c := by
  unfold reconcile_position
  split
  · exact le_rfl
  · split
    · exact min_le_left _ _
    · split
      · exact min_le_left _ _
      · exact le_rfl

theorem foldl_reconcile_position (p : plugin) (s0 : Nat) (P : List block_position) :
    ∀ c : Nat, c ≤ s0 →
      (P.foldl (reconcile_position p) c = c ∨
        P.foldl (reconcile_position p) c ∈
          (P.filter fun cp => decide (cp.block_num < s0) &&
            decide (get_block_id p cp.block_num ≠ some cp.block_id)).map block_position.block_num) ∧
      P.foldl (reconcile_position p) c ≤ c ∧
      ∀ h ∈ (P.filter fun cp => decide (cp.block_num < s0) &&
            decide (get_block_id p cp.block_num ≠ some cp.block_id)).map block_position.block_num,
        P.foldl (reconcile_position p) c ≤ h := by
  induction P with
  | nil => intro c _; simp
  | cons cp rest ih =>
    intro c hc
    have hle := reconcile_position_le p c cp
    obtain ⟨ih1, ih2, ih3⟩ := ih (reconcile_position p c cp) (le_trans hle hc)
    simp only [List.foldl_cons]
    by_cases hmis : cp.block_num < s0 ∧ get_block_id p cp.block_num ≠ some cp.block_id
    · have hf : (List.filter (fun cp => decide (cp.block_num < s0) &&
          decide (get_block_id p cp.block_num ≠ some cp.block_id)) (cp :: rest)) =
          cp :: List.filter (fun cp => decide (cp.block_num < s0) &&
          decide (get_block_id p cp.block_num ≠ some cp.block_id)) rest := by
        rw [List.filter_cons_of_pos]; simpa using hmis
      rw [hf]
      have hstep : reconcile_position p c cp ≤ cp.block_num ∧
          (reconcile_position p c cp = c ∨ reconcile_position p c cp = cp.block_num) := by
        unfold reconcile_position
        split
        · rename_i h; exact ⟨h, Or.inl rfl⟩
        · rename_i h
          have hlt : cp.block_num ≤ c := by omega
          split
          · exact ⟨min_le_right _ _, Or.inr (min_eq_right hlt)⟩
          · rename_i id hid
            have : id ≠ cp.block_id := by
              intro e; exact hmis.2 (by rw [hid, e])
            rw [if_pos this]
            exact ⟨min_le_right _ _, Or.inr (min_eq_right hlt)⟩
      refine ⟨?_, le_trans ih2 hle, ?_⟩
      · rcases ih1 with h | h
        · rcases hstep.2 with h' | h'
          · left; rw [h, h']
          · right; rw [h, h']; simp
        · right; simp only [List.map_cons, List.mem_cons]; right; exact h
      · intro h hh
        simp only [List.map_cons, List.mem_cons] at hh
        rcases hh with rfl | hh
        · exact le_trans ih2 hstep.1
        · exact ih3 h hh
    · have hf : (List.filter (fun cp => decide (cp.block_num < s0) &&
          decide (get_block_id p cp.block_num ≠ some cp.block_id)) (cp :: rest)) =
          List.filter (fun cp => decide (cp.block_num < s0) &&
          decide (get_block_id p cp.block_num ≠ some cp.block_id)) rest := by
        rw [List.filter_cons_of_neg]; simpa using hmis
      rw [hf]
      have hstep : reconcile_position p c cp = c := by
        unfold reconcile_position
        split
        · rfl
        · rename_i h
          have hlt : cp.block_num < s0 := by omega
          have hid : get_block_id p cp.block_num = some cp.block_id := by
            by_contra hne; exact hmis ⟨hlt, hne⟩
          simp [hid]
      rw [hstep] at ih1 ih2 ih3 ⊢
      exact ⟨ih1, ih2, ih3⟩

theorem reconcile_start_is_min (p : plugin) (req : get_blocks_request_v0) :
    (reconcile p req).start_block_num ∈ mismatched_heights p req ∧
    ∀ h ∈ mismatched_heights p req, (reconcile p req).start_block_num ≤ h := by
  obtain ⟨h1, h2, h3⟩ :=
    foldl_reconcile_position p req.start_block_num req.have_positions req.start_block_num le_rfl
  unfold mismatched_heights
  simp only [reconcile, List.mem_cons]
  refine ⟨h1, ?_⟩
  intro h hh
  rcases hh with rfl | hh
  · exact h2
  · exact h3 h hh

theorem update_outcome_request (s : session) (o : outcome) (h : update_outcome s o) :
    o.state.current_request = s.current_request ∨
    ∃ req, s.current_request = some req ∧ s.send_queue = [] ∧ req.max_messages_in_flight ≠ 0 ∧
      (o.state.current_request = some { req with
          max_messages_in_flight :=
            (req.max_messages_in_flight + (u32_modulus - 1)) % u32_modulus } ∨
       (req.start_block_num < req.end_block_num ∧
        o.state.current_request = some { req with
          start_block_num := (req.start_block_num + 1) % u32_modulus,
          max_messages_in_flight :=
            (req.max_messages_in_flight + (u32_modulus - 1)) % u32_modulus })) := by
  rcases h with ⟨b, h⟩ | ⟨b, h⟩ | ⟨req, req', res, n, h1, h2, h3, h4, h5⟩
  · left; rw [h]; rfl
  · left; rw [h]; rfl
  · right
    refine ⟨req, h1, h2, h3, ?_⟩
    rcases h5 with ⟨e, _⟩ | ⟨hlt, e, _⟩
    · left; rw [h4, e]; rfl
    · right; refine ⟨hlt, ?_⟩; rw [h4, e]; rfl

/-- C1 (amended): the request that `operator()(get_blocks_request_v0&)` installs with
`current_request = req`, before the send step it then runs, has as `start_block_num` the least of
the received start and the heights of the positions below it that the server does not have, has
no `have_positions`, and has every other field as received. The handler then runs
`send_update(true)` on it: if the session cannot send (frames queued, or no credit) the installed
request is `current_request` when the handler returns; in every case `current_request` is then
the installed request, or it with the credit lowered by one, or it with the credit lowered by one
and the cursor advanced by one. -/
theorem get_blocks_request_installs_minimum (p : plugin) (req : get_blocks_request_v0)
    (s : session) :
    ((reconcile p req).start_block_num ∈ mismatched_heights p req ∧
      ∀ h ∈ mismatched_heights p req, (reconcile p req).start_block_num ≤ h) ∧
    reconcile p req =
      { req with start_block_num := (reconcile p req).start_block_num, have_positions := [] } ∧
    on_get_blocks_request p req s =
      send_update p true { s with current_request := some (reconcile p req) } ∧
    ((s.send_queue ≠ [] ∨ req.max_messages_in_flight = 0) →
      on_get_blocks_request p req s =
        .done { s with current_request := some (reconcile p req), need_to_send_update := true }) ∧
    ∃ r, (on_get_blocks_request p req s).state.current_request = some r ∧
      (r = reconcile p req ∨
       r = { reconcile p req with
          max_messages_in_flight :=
            (req.max_messages_in_flight + (u32_modulus - 1)) % u32_modulus } ∨
       r = { reconcile p req with
          start_block_num := ((reconcile p req).start_block_num + 1) % u32_modulus,
          max_messages_in_flight :=
            (req.max_messages_in_flight + (u32_modulus - 1)) % u32_modulus }) := by
  refine ⟨reconcile_start_is_min p req, rfl, rfl, ?_, ?_⟩
  · intro h
    unfold on_get_blocks_request send_update
    simp only [if_true]
    rcases h with h | h
    · simp [h]
    · have : (reconcile p req).max_messages_in_flight = 0 := h
      simp [this]
  · have h := update_outcome_request _ _
      (send_update_outcome p true { s with current_request := some (reconcile p req) })
    rcases h with h | ⟨r0, h1, _, _, h4⟩
    · exact ⟨_, h, Or.inl rfl⟩
    · have e : r0 = reconcile p req := (Option.some.inj h1).symm
      subst e
      rcases h4 with h4 | ⟨_, h4⟩
      · exact ⟨_, h4, Or.inr (Or.inl rfl)⟩
      · exact ⟨_, h4, Or.inr (Or.inr rfl)⟩

/-- C1 (counterexample): a subscription `start = 1, end = 5, credit = 10` with no
`have_positions`, received by a greeted session with nothing queued, on a chain that has block 1.
The least height of the claim is the received start, 1, and it is what the handler installs; but
the handler also runs the send step, so that when it returns `start_block_num` is 2 and
`max_messages_in_flight` is 9, not 1 and 10. -/
theorem get_blocks_request_then_sends :
    mismatched_heights chain_only_plugin ⟨1, 5, 10, [], false, false, false, false⟩ = [1] ∧
    (reconcile chain_only_plugin ⟨1, 5, 10, [], false, false, false, false⟩).start_block_num = 1 ∧
    (step chain_only_plugin (.get_blocks_request ⟨1, 5, 10, [], false, false, false, false⟩)
        greeted_session).current_request =
      some ⟨2, 5, 9, [], false, false, false, false⟩ := by
  decide

/-! ## Credit -/

theorem before_update_credit (p : plugin) (e : event) (s : session) (req : get_blocks_request_v0)
    (he : e.sets_credit = false) (hc : s.current_request = some req) :
    ∃ req0, (before_update p e s).current_request = some req0 ∧
      req0.max_messages_in_flight = req.max_messages_in_flight := by
  unfold before_update
  cases e with
  | get_blocks_request r => simp [event.sets_credit] at he
  | get_blocks_ack_request n => simp [event.sets_credit] at he
  | accepted_block b =>
    simp only [hc]
    split
    · exact ⟨_, rfl, rfl⟩
    · exact ⟨req, hc, rfl⟩
  | async_write => exact ⟨req, hc, rfl⟩
  | async_accept => exact ⟨req, hc, rfl⟩
  | get_status_request => exact ⟨req, hc, rfl⟩
  | fail => exact ⟨req, hc, rfl⟩

theorem count_blocks_results_of_none (fs : List frame)
    (h : ∀ f ∈ fs, f.is_blocks_result = false) : count_blocks_results fs = 0 := by
  unfold count_blocks_results
  rw [List.countP_eq_zero]
  intro f hf
  simp [h f hf]

theorem credit_step (p : plugin) (e : event) (s : session) (req : get_blocks_request_v0)
    (he : e.sets_credit = false) (hc : s.current_request = some req)
    (hm : req.max_messages_in_flight < u32_modulus) :
    ∃ (req' : get_blocks_request_v0) (new : List frame),
      (step p e s).current_request = some req' ∧ (step p e s).pushed = s.pushed ++ new ∧
      count_blocks_results new + req'.max_messages_in_flight = req.max_messages_in_flight := by
  obtain ⟨req0, hb, hb'⟩ := before_update_credit p e s req he hc
  rcases step_effect p e s with ⟨fs, hfs, hp, hr⟩ | ⟨r, r', res, h1, h2, h3, h4, h5, _⟩
  · have h0 := count_blocks_results_of_none fs hfs
    rcases hr with hr | hr
    · exact ⟨req, fs, by rw [hr, hc], hp, by omega⟩
    · exact ⟨req0, fs, by rw [hr, hb], hp, by omega⟩
  · have e0 : r = req0 := Option.some.inj (h1.symm.trans hb)
    subst e0
    refine ⟨r', [.blocks res], h4, h3, ?_⟩
    have hone : count_blocks_results [frame.blocks res] = 1 := by
      simp [count_blocks_results, frame.is_blocks_result]
    rw [hone, h5, hb']
    rw [hb'] at h2
    unfold u32_modulus at hm ⊢
    omega

/-- C3: from any session with an active subscription whose `max_messages_in_flight` is `c` (a
`uint32_t`), over any sequence of events none of which is a `get_blocks_request_v0` or a
`get_blocks_ack_request_v0`, the subscription stays active and the number of
`get_blocks_result_v0` frames enqueued plus the credit left equals `c`: at most `c` such frames
are enqueued, none when `c = 0`, and each one lowers `max_messages_in_flight` by exactly 1. -/
theorem credit_bounds_block_results (evs : List (plugin × event)) (s : session)
    (req : get_blocks_request_v0) (hc : s.current_request = some req)
    (hm : req.max_messages_in_flight < u32_modulus)
    (he : ∀ pe ∈ evs, pe.2.sets_credit = false) :
    ∃ (req' : get_blocks_request_v0) (new : List frame),
      (run evs s).current_request = some req' ∧ (run evs s).pushed = s.pushed ++ new ∧
      count_blocks_results new + req'.max_messages_in_flight = req.max_messages_in_flight ∧
      count_blocks_results new ≤ req.max_messages_in_flight ∧
      (req.max_messages_in_flight = 0 → count_blocks_results new = 0) := by
  induction evs generalizing s req with
  | nil => exact ⟨req, [], hc, by simp [run], by simp [count_blocks_results], by simp [count_blocks_results],
      fun _ => by simp [count_blocks_results]⟩
  | cons pe rest ih =>
    obtain ⟨r1, n1, h1, h2, h3⟩ :=
      credit_step pe.1 pe.2 s req (he pe (List.mem_cons_self _ _)) hc hm
    obtain ⟨r2, n2, k1, k2, k3, _, _⟩ := ih (step pe.1 pe.2 s) r1 h1 (by omega)
      (fun x hx => he x (List.mem_cons_of_mem _ hx))
    have hcount : count_blocks_results (n1 ++ n2) =
        count_blocks_results n1 + count_blocks_results n2 := by
      simp [count_blocks_results, List.countP_append]
    refine ⟨r2, n1 ++ n2, k1, ?_, ?_, ?_, ?_⟩
    · show (run rest (step pe.1 pe.2 s)).pushed = _
      rw [k2, h2, List.append_assoc]
    · rw [hcount]; omega
    · rw [hcount]; omega
    · intro h0; rw [hcount]; omega

/-- C3 (witness): a subscription with credit 2 left, on a chain with blocks to send; three write
completions and two accepted blocks follow. -/
theorem credit_bounds_block_results_witness :
    streaming_session.current_request = some ⟨2, 5, 2, [], false, false, false, false⟩ ∧
    ∃ (req' : get_blocks_request_v0) (new : List frame),
      (run quiet_events streaming_session).current_request = some req' ∧
      (run quiet_events streaming_session).pushed = streaming_session.pushed ++ new ∧
      count_blocks_results new + req'.max_messages_in_flight = 2 ∧
      count_blocks_results new ≤ 2 ∧
      ((2 : Nat) = 0 → count_blocks_results new = 0) :=
  ⟨by decide,
    credit_bounds_block_results quiet_events streaming_session
      ⟨2, 5, 2, [], false, false, false, false⟩ (by decide) (by decide) (by decide)⟩

/-! ## Order of the blocks delivered -/

theorem before_update_cursor (p : plugin) (e : event) (s : session) (hs : List Nat)
    (h : cursor_at_least hs s.current_request)
    (hk : ∀ c, cursor_set_by p e s = some c → ∀ x ∈ hs, x ≤ c)
    (hu : e.end_is_u32 = true) :
    cursor_at_least hs (before_update p e s).current_request := by
  unfold before_update
  cases e with
  | get_blocks_request req =>
    simp only [event.end_is_u32, decide_eq_true_eq] at hu
    intro cur hcur
    have e : cur = reconcile p req := (Option.some.inj hcur).symm
    subst e
    exact ⟨hu, hk _ (by simp [cursor_set_by])⟩
  | get_blocks_ack_request n =>
    cases hc : s.current_request with
    | none => simpa [hc] using h
    | some cur =>
      intro r hr
      have e : r = add_credit n cur := (Option.some.inj hr).symm
      subst e
      exact h cur hc
  | accepted_block b =>
    cases hc : s.current_request with
    | none => simpa [hc] using h
    | some cur =>
      simp only
      by_cases hb : b.block_num < cur.start_block_num
      · rw [if_pos hb]
        intro r hr
        have e : r = { cur with start_block_num := b.block_num } := (Option.some.inj hr).symm
        subst e
        exact ⟨(h cur hc).1, hk _ (by simp [cursor_set_by, hc, hb])⟩
      · rw [if_neg hb]
        exact h
  | async_write => exact h
  | async_accept => exact h
  | get_status_request => exact h
  | fail => exact h

theorem this_block_heights_of_none (fs : List frame)
    (h : ∀ f ∈ fs, f.is_blocks_result = false) : this_block_heights fs = [] := by
  unfold this_block_heights
  rw [List.filterMap_eq_nil_iff]
  intro f hf
  have := h f hf
  cases f <;> simp_all [frame.is_blocks_result, frame.this_block_num]

theorem order_step (p : plugin) (e : event) (s : session)
    (hk : keeps_sent_heights p e s = true) (hu : e.end_is_u32 = true)
    (hp : (this_block_heights s.pushed).Pairwise (· ≤ ·))
    (hc : cursor_at_least (this_block_heights s.pushed) s.current_request) :
    (this_block_heights (step p e s).pushed).Pairwise (· ≤ ·) ∧
    cursor_at_least (this_block_heights (step p e s).pushed) (step p e s).current_request := by
  by_cases hcl : s.closed = true
  · have hst : step p e s = s := by
      unfold step
      rw [if_pos hcl]
    rw [hst]
    exact ⟨hp, hc⟩
  have hk' : ∀ c, cursor_set_by p e s = some c → ∀ x ∈ this_block_heights s.pushed, x ≤ c := by
    intro c hcs x hx
    simp only [keeps_sent_heights, Bool.or_eq_true, hcl, hcs, List.all_eq_true,
      decide_eq_true_eq] at hk
    rcases hk with hk | hk
    · exact absurd hk (by simp)
    · exact hk x hx
  have hb := before_update_cursor p e s _ hc hk' hu
  rcases step_effect p e s with ⟨fs, hfs, hpush, hr⟩ | ⟨r, r', res, h1, h2, h3, h4, h5, h6, h7⟩
  · have hH : this_block_heights (step p e s).pushed = this_block_heights s.pushed := by
      rw [hpush]
      unfold this_block_heights
      rw [List.filterMap_append]
      have := this_block_heights_of_none fs hfs
      unfold this_block_heights at this
      rw [this, List.append_nil]
    rw [hH]
    refine ⟨hp, ?_⟩
    rcases hr with hr | hr <;> rw [hr]
    · exact hc
    · exact hb
  · obtain ⟨hend, hle⟩ := hb r h1
    have hsplit : this_block_heights (step p e s).pushed =
        this_block_heights s.pushed ++ this_block_heights [.blocks res] := by
      rw [h3]; unfold this_block_heights; rw [List.filterMap_append]
    rw [hsplit, h4]
    rcases h7 with ⟨hst, hnone⟩ | ⟨hlt', hst, hres⟩
    · have : this_block_heights [.blocks res] = [] := by
        simp [this_block_heights, frame.this_block_num, hnone]
      rw [this, List.append_nil]
      refine ⟨hp, ?_⟩
      intro cur hcur
      have e : cur = r' := (Option.some.inj hcur).symm
      subst e
      exact ⟨by rw [h6]; exact hend, fun x hx => by rw [hst]; exact hle x hx⟩
    · have hnext : r'.start_block_num = r.start_block_num + 1 := by
        rw [hst]; unfold u32_modulus at hend ⊢; omega
      rcases hres with hnone | ⟨id, hid⟩
      · have : this_block_heights [.blocks res] = [] := by
          simp [this_block_heights, frame.this_block_num, hnone]
        rw [this, List.append_nil]
        refine ⟨hp, ?_⟩
        intro cur hcur
        have e : cur = r' := (Option.some.inj hcur).symm
        subst e
        exact ⟨by rw [h6]; exact hend,
          fun x hx => by rw [hnext]; exact Nat.le_succ_of_le (hle x hx)⟩
      · have : this_block_heights [.blocks res] = [r.start_block_num] := by
          simp [this_block_heights, frame.this_block_num, hid]
        rw [this]
        refine ⟨?_, ?_⟩
        · rw [List.pairwise_append]
          exact ⟨hp, List.pairwise_singleton _ _, fun a ha b hb => by
            simp only [List.mem_singleton] at hb; rw [hb]; exact hle a ha⟩
        · intro cur hcur
          have e : cur = r' := (Option.some.inj hcur).symm
          subst e
          refine ⟨by rw [h6]; exact hend, ?_⟩
          intro x hx
          rw [hnext]
          simp only [List.mem_append, List.mem_singleton] at hx
          rcases hx with hx | hx
          · exact Nat.le_succ_of_le (hle x hx)
          · rw [hx]; exact Nat.le_succ _

theorem order_run (evs : List (plugin × event)) (s : session)
    (hu : ∀ pe ∈ evs, pe.2.end_is_u32 = true) (hk : never_rewinds_below_sent evs s = true)
    (hp : (this_block_heights s.pushed).Pairwise (· ≤ ·))
    (hc : cursor_at_least (this_block_heights s.pushed) s.current_request) :
    (this_block_heights (run evs s).pushed).Pairwise (· ≤ ·) := by
  induction evs generalizing s with
  | nil => exact hp
  | cons pe rest ih =>
    simp only [never_rewinds_below_sent, Bool.and_eq_true] at hk
    obtain ⟨h1, h2⟩ := order_step pe.1 pe.2 s hk.1 (hu pe (List.mem_cons_self _ _)) hp hc
    exact ih (step pe.1 pe.2 s) (fun x hx => hu x (List.mem_cons_of_mem _ hx)) hk.2 h1 h2

/-- C4 (amended): in every run of a new session in which no event sets the cursor below a
`this_block` height that the session has already enqueued (no `get_blocks_request_v0` installs
such a `start_block_num`, and no accepted block below the cursor is below such a height), the
`this_block` heights of the block results the session enqueues never decrease in the order of
enqueueing; so of two results with heights `h < h'`, the one for `h` is enqueued first. The
`end_block_num` of every request is a `uint32_t`. -/
theorem delivered_heights_ordered (evs : List (plugin × event))
    (hu : ∀ pe ∈ evs, pe.2.end_is_u32 = true)
    (hk : never_rewinds_below_sent evs session.init = true) :
    (this_block_heights (run evs session.init).pushed).Pairwise (· ≤ ·) :=
  order_run evs session.init hu hk (by simp [this_block_heights, session.init])
    (by intro cur hcur; simp [session.init] at hcur)

/-- C4 (witness): a run with a fork at the head. Blocks 19 and 20 are delivered and the cursor
is 21 when block 20 of the other fork is accepted; the cursor goes back to 20, which is not
below a height delivered, and block 20 is delivered again. -/
theorem delivered_heights_ordered_witness :
    never_rewinds_below_sent head_fork_events session.init = true ∧
    this_block_heights (run head_fork_events session.init).pushed = [19, 20, 20] ∧
    (this_block_heights (run head_fork_events session.init).pushed).Pairwise (· ≤ ·) :=
  ⟨by decide, by decide, delivered_heights_ordered head_fork_events (by decide) (by decide)⟩

/-- C4 (counterexample): after the block result for height 5 has been enqueued, a second
`get_blocks_request_v0` with `start_block_num = 3` arrives; the next write completion enqueues
the block result for height 3, after the one for 5. -/
theorem cursor_rewinds_reorder_heights :
    this_block_heights (run resubscribe_events session.init).pushed = [5, 3] ∧
    ¬ (this_block_heights (run resubscribe_events session.init).pushed).Pairwise (· ≤ ·) := by
  constructor
  · decide
  · have h : this_block_heights (run resubscribe_events session.init).pushed = [5, 3] := by
      decide
    rw [h]
    decide

/-! ## Credit granted by an ack -/

/-- C5 (amended): for a `get_blocks_ack_request_v0` handled while a subscription is active, with
`max_messages_in_flight = m` before, the value after the addition and before any frame is sent is
`(m + num_messages) mod 2^32`; it is `m + num_messages` when that sum is below `2^32`. Nothing
else of the subscription changes, and the handler then runs `send_update()`, after which the
credit is that value, or one less when a block result was enqueued. -/
theorem ack_adds_credit_modulo (p : plugin) (num_messages : Nat) (s : session)
    (req : get_blocks_request_v0) (hc : s.current_request = some req) :
    on_get_blocks_ack_request p num_messages s =
      send_update p false { s with current_request := some (add_credit num_messages req) } ∧
    add_credit num_messages req = { req with
      max_messages_in_flight := (req.max_messages_in_flight + num_messages) % u32_modulus } ∧
    (req.max_messages_in_flight + num_messages < u32_modulus →
      (add_credit num_messages req).max_messages_in_flight =
        req.max_messages_in_flight + num_messages) ∧
    ∃ r, (on_get_blocks_ack_request p num_messages s).state.current_request = some r ∧
      (r.max_messages_in_flight = (req.max_messages_in_flight + num_messages) % u32_modulus ∨
       ((req.max_messages_in_flight + num_messages) % u32_modulus ≠ 0 ∧
        r.max_messages_in_flight =
          (req.max_messages_in_flight + num_messages) % u32_modulus - 1)) := by
  have hdef : on_get_blocks_ack_request p num_messages s =
      send_update p false { s with current_request := some (add_credit num_messages req) } := by
    simp [on_get_blocks_ack_request, hc]
  refine ⟨hdef, rfl, fun h => by simp [add_credit, Nat.mod_eq_of_lt h], ?_⟩
  rw [hdef]
  have hlt : (req.max_messages_in_flight + num_messages) % u32_modulus < u32_modulus :=
    Nat.mod_lt _ (by decide)
  rcases update_outcome_request _ _ (send_update_outcome p false
      { s with current_request := some (add_credit num_messages req) }) with h | ⟨r0, h1, _, h3, h4⟩
  · exact ⟨_, h, Or.inl rfl⟩
  · have e : r0 = add_credit num_messages req := (Option.some.inj h1).symm
    subst e
    have h3' : (req.max_messages_in_flight + num_messages) % u32_modulus ≠ 0 := h3
    have hdec : ((req.max_messages_in_flight + num_messages) % u32_modulus +
        (u32_modulus - 1)) % u32_modulus =
        (req.max_messages_in_flight + num_messages) % u32_modulus - 1 := by
      unfold u32_modulus at hlt h3' ⊢
      omega
    rcases h4 with h4 | ⟨_, h4⟩
    · exact ⟨_, h4, Or.inr ⟨h3', hdec⟩⟩
    · exact ⟨_, h4, Or.inr ⟨h3', hdec⟩⟩

/-- C5 (witness): an ack of 3 messages for a session that follows the head with credit 2. -/
theorem ack_adds_credit_modulo_witness :
    tail_session.current_request = some ⟨21, 100, 2, [], false, false, false, false⟩ ∧
    add_credit 3 ⟨21, 100, 2, [], false, false, false, false⟩ =
      ⟨21, 100, 5, [], false, false, false, false⟩ ∧
    on_get_blocks_ack_request chain_only_plugin 3 tail_session =
      send_update chain_only_plugin false { tail_session with
        current_request := some (add_credit 3 ⟨21, 100, 2, [], false, false, false, false⟩) } :=
  ⟨by decide, by decide,
    (ack_adds_credit_modulo chain_only_plugin 3 tail_session
      ⟨21, 100, 2, [], false, false, false, false⟩ (by decide)).1⟩

/-- C5 (counterexample): the session has `max_messages_in_flight = 4294967294`, a `uint32_t`, and
a frame in flight, so that the ack sends nothing. An ack with `num_messages = 2` leaves
`max_messages_in_flight = 0`, not `4294967294 + 2`. -/
theorem ack_wraps_credit :
    full_credit_session.current_request.map get_blocks_request_v0.max_messages_in_flight =
      some 4294967294 ∧
    (step chain_only_plugin (.get_blocks_ack_request 2)
        full_credit_session).current_request.map get_blocks_request_v0.max_messages_in_flight =
      some 0 ∧
    (step chain_only_plugin (.get_blocks_ack_request 2) full_credit_session).pushed =
      full_credit_session.pushed := by
  decide

/-! ## Log payloads -/

theorem get_block_id_of_trace_log_covers (p : plugin) (log : state_history_log) (h : Nat)
    (hl : p.trace_log = some log) (hr : log.begin_block ≤ h ∧ h < log.end_block) :
    get_block_id p h = some (log.block_ids h) := by
  simp [get_block_id, hl, hr, state_history_log.get_block_id]

theorem get_block_id_of_chain_state_log_covers (p : plugin) (log : state_history_log) (h : Nat)
    (hl : p.chain_state_log = some log) (hr : log.begin_block ≤ h ∧ h < log.end_block) :
    (get_block_id p h).isSome = true := by
  unfold get_block_id
  have h2 : (get_block_id_from_chain_state_log p h).isSome = true := by
    simp [get_block_id_from_chain_state_log, hl, hr, state_history_log.get_block_id]
  split
  · split
    · rename_i hr'
      simp [state_history_log.get_block_id, hr']
    · exact h2
  · exact h2

theorem block_result_traces (p : plugin) (req : get_blocks_request_v0) (hd : block_position)
    (entry : bytes) :
    (block_result p req hd).traces = some entry ↔
      (req.fetch_traces = true ∧ ∃ log, p.trace_log = some log ∧
        (log.begin_block ≤ req.start_block_num ∧ req.start_block_num < log.end_block) ∧
        entry = log.entries req.start_block_num) := by
  rw [← fetch_log_entry_some_iff]
  unfold block_result
  cases hid : get_block_id p req.start_block_num with
  | some id => exact Iff.rfl
  | none =>
    constructor
    · intro h; exact absurd h (by simp)
    · intro h
      obtain ⟨_, log, hl, hr, _⟩ := (fetch_log_entry_some_iff _ _ _ _).mp h
      rw [get_block_id_of_trace_log_covers p log _ hl hr] at hid
      exact absurd hid (by simp)

theorem block_result_deltas (p : plugin) (req : get_blocks_request_v0) (hd : block_position)
    (entry : bytes) :
    (block_result p req hd).deltas = some entry ↔
      (req.fetch_deltas = true ∧ ∃ log, p.chain_state_log = some log ∧
        (log.begin_block ≤ req.start_block_num ∧ req.start_block_num < log.end_block) ∧
        entry = log.entries req.start_block_num) := by
  rw [← fetch_log_entry_some_iff]
  unfold block_result
  cases hid : get_block_id p req.start_block_num with
  | some id => exact Iff.rfl
  | none =>
    constructor
    · intro h; exact absurd h (by simp)
    · intro h
      obtain ⟨_, log, hl, hr, _⟩ := (fetch_log_entry_some_iff _ _ _ _).mp h
      have hsome := get_block_id_of_chain_state_log_covers p log _ hl hr
      rw [hid] at hsome
      exact absurd hsome (by simp)

/-- C6: a send step that runs (`send_queue` empty, subscription active, credit not 0) with the
cursor `h` at most `current` and below `end_block_num` returns having enqueued exactly one
result, `block_result`, and the session is as open as it was, whatever the logs hold. In that
result `traces` is present if and only if `fetch_traces` is set, the trace log is enabled and
`trace_log.begin_block ≤ h < trace_log.end_block`, and it is then the entry of the trace log
for `h`; `deltas` likewise for `fetch_deltas` and the chain-state log. So a requested log that
is enabled and does not hold `h` leaves its field absent in a result that is enqueued all the
same. -/
theorem log_payloads_when_log_covers (p : plugin) (s : session) (req : get_blocks_request_v0)
    (hd : block_position) (hq : s.send_queue = []) (hc : s.current_request = some req)
    (hm : req.max_messages_in_flight ≠ 0)
    (hcur : req.start_block_num ≤ (if req.irreversible_only then
        p.chain.last_irreversible_block_num else hd.block_num) ∧
      req.start_block_num < req.end_block_num) :
    (∃ s', send_update_result p { head := hd } s = .done s') ∧
    (send_update_result p { head := hd } s).state.pushed =
      s.pushed ++ [.blocks (block_result p req hd)] ∧
    (catch_and_close (send_update_result p { head := hd } s)).closed = s.closed ∧
    (∀ entry, (block_result p req hd).traces = some entry ↔
      (req.fetch_traces = true ∧ ∃ log, p.trace_log = some log ∧
        (log.begin_block ≤ req.start_block_num ∧ req.start_block_num < log.end_block) ∧
        entry = log.entries req.start_block_num)) ∧
    (∀ entry, (block_result p req hd).deltas = some entry ↔
      (req.fetch_deltas = true ∧ ∃ log, p.chain_state_log = some log ∧
        (log.begin_block ≤ req.start_block_num ∧ req.start_block_num < log.end_block) ∧
        entry = log.entries req.start_block_num)) := by
  have heq := send_update_result_eq p { head := hd } s req hq hc hm
  rw [stepped_block p req hd hcur] at heq
  have hf := send_pushed_fields (.blocks (block_result p req hd)) s
  refine ⟨⟨_, heq⟩, ?_, ?_, block_result_traces p req hd, block_result_deltas p req hd⟩
  · rw [heq]; exact hf.2.1
  · rw [heq]; exact hf.2.2.2.2.1

/-- C6 (witness): the trace log holds blocks 1..20 and the chain-state log, enabled later,
blocks 18..20. A send step runs at cursor 10 for a subscription with `fetch_traces` and
`fetch_deltas`: the result for block 10 is enqueued with the traces of block 10 and no deltas,
and the session is open. -/
theorem log_payloads_when_log_covers_witness :
    traces_deltas_session.send_queue = [] ∧
    traces_deltas_session.current_request = some traces_deltas_request ∧
    (send_update_result late_chain_state_plugin { head := ⟨20, 120⟩ }
        traces_deltas_session).state.pushed =
      traces_deltas_session.pushed ++ [.blocks ⟨⟨20, 120⟩, ⟨15, 115⟩, some ⟨10, 110⟩,
        some ⟨9, 109⟩, none, some [10, 10], none⟩] ∧
    (catch_and_close (send_update_result late_chain_state_plugin { head := ⟨20, 120⟩ }
        traces_deltas_session)).closed = false :=
  ⟨by decide, by decide,
    (log_payloads_when_log_covers late_chain_state_plugin traces_deltas_session
      traces_deltas_request ⟨20, 120⟩ (by decide) (by decide) (by decide) (by decide)).2.1,
    (log_payloads_when_log_covers late_chain_state_plugin traces_deltas_session
      traces_deltas_request ⟨20, 120⟩ (by decide) (by decide) (by decide) (by decide)).2.2.1⟩

/-! ## Frame modes -/

theorem step_written (p : plugin) (e : event) (s : session) :
    ((step p e s).written = s.written ∨
      ∃ f, (step p e s).written = s.written ++ [(f, s.sent_abi)]) ∧
    (s.sent_abi = true → (step p e s).sent_abi = true) := by
  rcases step_pump p e s with h | ⟨f, h⟩ | ⟨_, hs, h | ⟨f, _, h⟩ | ⟨f, rest, _, h⟩⟩
  · exact ⟨Or.inl h.2.2.2.2, fun ha => by rw [h.2.1, ha]⟩
  · refine ⟨?_, fun ha => by rw [h.2.1, send_pushed_sent_abi, ha]; rfl⟩
    rcases send_pushed_written_cases f s with ⟨_, hw⟩ | ⟨_, g, _, hw⟩
    · exact Or.inl (h.2.2.2.2.trans hw)
    · exact Or.inr ⟨g, h.2.2.2.2.trans hw⟩
  · exact ⟨Or.inl h.2.2.2.2.2, fun ha => by rw [h.2.2.1]; exact ha⟩
  · refine ⟨?_, fun ha => by rw [h.2.1, send_pushed_sent_abi]; simp⟩
    rcases send_pushed_written_cases f { s with send_queue := s.send_queue.tail, sending := false }
      with ⟨hc, _⟩ | ⟨_, g, _, hw⟩
    · exact absurd hc (by simp)
    · exact Or.inr ⟨g, h.2.2.2.2.trans hw⟩
  · exact ⟨Or.inr ⟨f, h.2.2.2.2⟩, fun _ => h.2.1⟩

theorem run_append (a b : List (plugin × event)) (s : session) :
    run (a ++ b) s = run b (run a s) := by
  simp [run, List.foldl_append]

theorem run_cons (pe : plugin × event) (rest : List (plugin × event)) (s : session) :
    run (pe :: rest) s = run rest (step pe.1 pe.2 s) := rfl

theorem run_before_handshake (pre : List (plugin × event))
    (hpre : ∀ pe ∈ pre, ∃ b, pe.2 = .accepted_block b) (n : Bool) :
    ∃ m, run pre { session.init with need_to_send_update := n } =
      { session.init with need_to_send_update := m } := by
  induction pre generalizing n with
  | nil => exact ⟨n, rfl⟩
  | cons pe rest ih =>
    obtain ⟨b, hb⟩ := hpre pe (List.mem_cons_self _ _)
    rw [run_cons, hb]
    exact ih (fun x hx => hpre x (List.mem_cons_of_mem _ hx)) true

theorem modes_run (post : List (plugin × event)) (s : session) (rest : List (frame × Bool))
    (ha : s.sent_abi = true) (hw : s.written = (frame.abi, false) :: rest)
    (hb : ∀ w ∈ rest, w.2 = true) :
    ∃ rest', (run post s).written = (frame.abi, false) :: rest' ∧ ∀ w ∈ rest', w.2 = true := by
  induction post generalizing s rest with
  | nil => exact ⟨rest, hw, hb⟩
  | cons pe more ih =>
    rw [run_cons]
    obtain ⟨h1, h2⟩ := step_written pe.1 pe.2 s
    rcases h1 with h1 | ⟨f, h1⟩
    · exact ih _ rest (h2 ha) (h1.trans hw) hb
    · refine ih _ (rest ++ [(f, true)]) (h2 ha) ?_ ?_
      · rw [h1, hw, ha]; rfl
      · intro w hw'
        simp only [List.mem_append, List.mem_singleton] at hw'
        rcases hw' with hw' | hw'
        · exact hb w hw'
        · rw [hw']

/-- C7: in every run of a session in which the handshake completes (before it only accepted
blocks can reach the session), whatever events follow and in whatever order, the first frame
given to `async_write` is the ABI greeting and it is written in text mode, every later frame is
written in binary mode, and so exactly one frame is written in text mode. -/
theorem first_frame_text_rest_binary (pre post : List (plugin × event)) (p : plugin)
    (hpre : ∀ pe ∈ pre, ∃ b, pe.2 = .accepted_block b) :
    ∃ rest, (run (pre ++ (p, .async_accept) :: post) session.init).written =
        (frame.abi, false) :: rest ∧
      (∀ w ∈ rest, w.2 = true) ∧
      (run (pre ++ (p, .async_accept) :: post) session.init).written.countP
        (fun w => !w.2) = 1 := by
  obtain ⟨m, hm⟩ := run_before_handshake pre hpre false
  have hinit : ({ session.init with need_to_send_update := false } : session) = session.init := rfl
  rw [hinit] at hm
  rw [run_append, hm, run_cons]
  obtain ⟨rest, h1, h2⟩ := modes_run post
    (step p .async_accept { session.init with need_to_send_update := m }) [] rfl rfl (by simp)
  refine ⟨rest, h1, h2, ?_⟩
  rw [h1, List.countP_cons_of_pos _ _ (by simp), List.countP_eq_zero.mpr]
  intro w hw
  simp [h2 w hw]

/-- C7 (witness): two blocks are accepted before the handshake completes; a status request, a
subscription and write completions follow. -/
theorem first_frame_text_rest_binary_witness :
    ∃ rest, (run ([(chain_only_plugin, .accepted_block ⟨19, 119⟩),
          (chain_only_plugin, .accepted_block ⟨20, 120⟩)] ++
        (chain_only_plugin, .async_accept) ::
          [(chain_only_plugin, .get_status_request), (chain_only_plugin, .async_write),
            (chain_only_plugin, .get_blocks_request ⟨1, 5, 3, [], false, false, false, false⟩),
            (chain_only_plugin, .async_write), (chain_only_plugin, .async_write)])
        session.init).written = (frame.abi, false) :: rest ∧
      (∀ w ∈ rest, w.2 = true) ∧
      (run ([(chain_only_plugin, .accepted_block ⟨19, 119⟩),
          (chain_only_plugin, .accepted_block ⟨20, 120⟩)] ++
        (chain_only_plugin, .async_accept) ::
          [(chain_only_plugin, .get_status_request), (chain_only_plugin, .async_write),
            (chain_only_plugin, .get_blocks_request ⟨1, 5, 3, [], false, false, false, false⟩),
            (chain_only_plugin, .async_write), (chain_only_plugin, .async_write)])
        session.init).written.countP (fun w => !w.2) = 1 :=
  first_frame_text_rest_binary _ _ _ (by
    intro pe hpe
    simp only [List.mem_cons, List.mem_singleton, List.not_mem_nil, or_false] at hpe
    rcases hpe with h | h <;> rw [h] <;> exact ⟨_, rfl⟩)

/-! ## The send pump is FIFO -/

theorem pump_invariant_of_same_pump {a b : session} (h : same_pump a b)
    (hb : pump_invariant b) : pump_invariant a := by
  obtain ⟨h1, h2, h3, h4, h5⟩ := h
  unfold pump_invariant
  rw [h1, h3, h4, h5]
  exact hb

theorem pump_invariant_send_pushed (f : frame) (s : session) (h : pump_invariant s) :
    pump_invariant (send_pushed f s) := by
  obtain ⟨h1, h2, h3⟩ := h
  have hf := send_pushed_fields f s
  unfold pump_invariant
  rw [hf.1, hf.2.1, hf.2.2.2.2.2]
  rcases send_pushed_written_cases f s with ⟨hs, hw⟩ | ⟨hs, g, hg, hw⟩
  · obtain ⟨f0, rest, w, b, hq, hwr⟩ := h2 hs
    rw [hw]
    refine ⟨?_, fun _ => ⟨f0, rest ++ [f], w, b, by rw [hq]; rfl, hwr⟩, fun hc => by simp at hc⟩
    rw [h1, hq]; simp
  · have hq := h3 hs
    rw [hq] at hg h1 ⊢
    simp only [List.nil_append, List.head?_cons, Option.some.injEq] at hg
    subst hg
    rw [hw]
    refine ⟨?_, fun _ => ⟨f, [], s.written, s.sent_abi, rfl, rfl⟩, fun hc => by simp at hc⟩
    rw [h1]; simp

theorem pump_invariant_step (p : plugin) (e : event) (s : session) (h : pump_invariant s) :
    pump_invariant (step p e s) := by
  rcases step_pump p e s with hp | ⟨f, hp⟩ | ⟨_, hs, hcase⟩
  · exact pump_invariant_of_same_pump hp h
  · exact pump_invariant_of_same_pump hp (pump_invariant_send_pushed f s h)
  · obtain ⟨h1, h2, _⟩ := h
    obtain ⟨f0, rest, w, b, hq, hw⟩ := h2 hs
    rw [hq] at h1
    simp only [List.tail_cons] at h1
    rcases hcase with ⟨ht, hp⟩ | ⟨f, ht, hp⟩ | ⟨f, more, ht, hp⟩
    · refine pump_invariant_of_same_pump hp ⟨?_, fun hc => by simp at hc, fun _ => ht⟩
      rw [hq] at ht
      simp only [List.tail_cons] at ht
      show s.pushed = s.written.map Prod.fst ++ s.send_queue.tail.tail
      rw [h1, hq, ht]; simp
    · refine pump_invariant_of_same_pump hp (pump_invariant_send_pushed f _
        ⟨?_, fun hc => by simp at hc, fun _ => ht⟩)
      rw [hq] at ht
      simp only [List.tail_cons] at ht
      show s.pushed = s.written.map Prod.fst ++ s.send_queue.tail.tail
      rw [h1, hq, ht]; simp
    · refine pump_invariant_of_same_pump hp ⟨?_, fun _ => ⟨f, more, s.written, s.sent_abi, ht, rfl⟩,
        fun hc => by simp [start_write] at hc⟩
      rw [hq] at ht
      simp only [List.tail_cons] at ht
      show s.pushed = (s.written ++ [(f, s.sent_abi)]).map Prod.fst ++ s.send_queue.tail.tail
      rw [h1, hq, ht]; simp

theorem pump_invariant_run (evs : List (plugin × event)) (s : session) (h : pump_invariant s) :
    pump_invariant (run evs s) := by
  induction evs generalizing s with
  | nil => exact h
  | cons pe rest ih => exact ih _ (pump_invariant_step pe.1 pe.2 s h)

theorem pump_invariant_init : pump_invariant session.init := by
  refine ⟨rfl, fun hc => ?_, fun _ => rfl⟩
  simp [session.init] at hc

theorem step_async_write (p : plugin) (s : session) (hc : s.closed = false)
    (hs : s.sending = true) :
    (s.send_queue.tail = [] ∧ same_pump (step p .async_write s)
        { s with send_queue := s.send_queue.tail, sending := false }) ∨
    (∃ f, s.send_queue.tail = [] ∧ same_pump (step p .async_write s)
        (send_pushed f { s with send_queue := s.send_queue.tail, sending := false })) ∨
    (∃ f rest, s.send_queue.tail = f :: rest ∧ same_pump (step p .async_write s)
        (start_write f { s with send_queue := s.send_queue.tail, sending := false })) := by
  have hstep : step p .async_write s = catch_and_close (on_async_write p s) := by
    simp [step, hc, hs]
  have wrap : ∀ o : outcome, same_pump (catch_and_close o) o.state := by
    intro o; cases o <;> exact same_pump_refl _
  rw [hstep]
  rcases send_cases p { s with send_queue := s.send_queue.tail, sending := false } rfl with
    ⟨f, rest, h1, h2⟩ | ⟨h1, h2⟩
  · right; right
    refine ⟨f, rest, h1, ?_⟩
    unfold on_async_write
    rw [h2]
    exact same_pump_refl _
  · rcases update_outcome_pump _ _ h2 with h3 | ⟨f, _, h3⟩
    · left; exact ⟨h1, same_pump_trans (wrap _) h3⟩
    · right; left; exact ⟨f, h1, same_pump_trans (wrap _) h3⟩

theorem step_starts_write (p : plugin) (e : event) (s : session) :
    (step p e s).written = s.written ∨
    ∃ f b, (step p e s).written = s.written ++ [(f, b)] ∧ (step p e s).sending = true ∧
      (s.sending = false ∨ e = .async_write) := by
  rcases step_pump p e s with h | ⟨f, h⟩ | ⟨he, hs, h | ⟨f, _, h⟩ | ⟨f, rest, _, h⟩⟩
  · exact Or.inl h.2.2.2.2
  · rcases send_pushed_written_cases f s with ⟨_, hw⟩ | ⟨hs, g, _, hw⟩
    · exact Or.inl (h.2.2.2.2.trans hw)
    · exact Or.inr ⟨g, _, h.2.2.2.2.trans hw, h.1.trans (send_pushed_fields f s).2.2.2.2.2,
        Or.inl hs⟩
  · exact Or.inl h.2.2.2.2.2
  · rcases send_pushed_written_cases f { s with send_queue := s.send_queue.tail, sending := false }
      with ⟨hc, _⟩ | ⟨_, g, _, hw⟩
    · exact absurd hc (by simp)
    · exact Or.inr ⟨g, _, h.2.2.2.2.trans hw,
        h.1.trans (send_pushed_fields f _).2.2.2.2.2, Or.inr he⟩
  · exact Or.inr ⟨f, _, h.2.2.2.2, h.1, Or.inr he⟩

/-- C8: in every state a session reaches, the frames pushed are the frames given to
`async_write`, in the same order and once each, followed by the frames that wait behind the head
of `send_queue`; `sending` implies that `send_queue` is not empty and that its head is the frame
of the last `async_write`, and `send_queue` is empty when `sending` is false. `send()` and the two
`send(...)` overloads start no write while `sending` is true; an event starts at most one write,
and only from a session that was not sending or on the completion of the previous write. A write
completion removes the head of `send_queue` and nothing else. -/
theorem send_pump_is_fifo (evs : List (plugin × event)) :
    (run evs session.init).pushed =
      (run evs session.init).written.map Prod.fst ++ (run evs session.init).send_queue.tail ∧
    ((run evs session.init).sending = true →
      ∃ (f : frame) (rest : List frame) (w : List (frame × Bool)) (b : Bool),
        (run evs session.init).send_queue = f :: rest ∧
        (run evs session.init).written = w ++ [(f, b)]) ∧
    ((run evs session.init).sending = false → (run evs session.init).send_queue = []) ∧
    (∀ (p : plugin) (f : frame) (s : session), s.sending = true →
      send p s = .done s ∧ (send_pushed f s).written = s.written) ∧
    (∀ (p : plugin) (e : event),
      (step p e (run evs session.init)).written = (run evs session.init).written ∨
      ∃ f b, (step p e (run evs session.init)).written =
          (run evs session.init).written ++ [(f, b)] ∧
        (step p e (run evs session.init)).sending = true ∧
        ((run evs session.init).sending = false ∨ e = .async_write)) ∧
    (∀ p : plugin, (run evs session.init).closed = false →
      (run evs session.init).sending = true →
      ∃ new, (step p .async_write (run evs session.init)).send_queue =
          (run evs session.init).send_queue.tail ++ new ∧
        (step p .async_write (run evs session.init)).pushed =
          (run evs session.init).pushed ++ new) := by
  obtain ⟨h1, h2, h3⟩ := pump_invariant_run evs session.init pump_invariant_init
  refine ⟨h1, h2, h3, ?_, fun p e => step_starts_write p e _, ?_⟩
  · intro p f s hs
    refine ⟨by simp [send, hs], ?_⟩
    rcases send_pushed_written_cases f s with ⟨_, hw⟩ | ⟨hc, _⟩
    · exact hw
    · rw [hs] at hc; exact absurd hc (by simp)
  · intro p hc hs
    rcases step_async_write p _ hc hs with ⟨_, h⟩ | ⟨f, _, h⟩ | ⟨f, rest, _, h⟩
    · exact ⟨[], by rw [h.2.2.1]; simp, by rw [h.2.2.2.1]; simp⟩
    · refine ⟨[f], ?_, ?_⟩
      · rw [h.2.2.1]; exact (send_pushed_fields f _).1
      · rw [h.2.2.2.1]; exact (send_pushed_fields f _).2.1
    · exact ⟨[], by rw [h.2.2.1]; simp [start_write], by rw [h.2.2.2.1]; simp [start_write]⟩

/-! ## The head-only step -/

/-- C10: when a send step runs (`send_queue` empty, subscription active, credit not 0) with
`start_block_num > current` or `start_block_num ≥ end_block_num`, where `current` is the height of
the last irreversible block if `irreversible_only` and the height of `head` otherwise, it enqueues
exactly one `get_blocks_result_v0`, which carries `head` and `last_irreversible` and has no
`this_block`, `prev_block`, `block`, `traces` or `deltas`; `start_block_num` is unchanged and
`need_to_send_update` is false afterwards. `send_update(block_state)` runs this step with the
accepted block as `head`, and `send_update(changed)` with the head of the chain. -/
theorem head_only_step (p : plugin) (s : session) (req : get_blocks_request_v0)
    (hd : block_position) (hq : s.send_queue = []) (hc : s.current_request = some req)
    (hm : req.max_messages_in_flight ≠ 0)
    (hcur : (if req.irreversible_only then p.chain.last_irreversible_block_num
        else hd.block_num) < req.start_block_num ∨ req.end_block_num ≤ req.start_block_num) :
    send_update_result p { head := hd } s =
      .done { send_pushed (.blocks ⟨hd, ⟨p.chain.last_irreversible_block_num,
          p.chain.last_irreversible_block_id⟩, none, none, none, none, none⟩) s with
        current_request := some { req with
          max_messages_in_flight :=
            (req.max_messages_in_flight + (u32_modulus - 1)) % u32_modulus },
        need_to_send_update := false } ∧
    (send_update_result p { head := hd } s).state.pushed =
      s.pushed ++ [.blocks ⟨hd, ⟨p.chain.last_irreversible_block_num,
          p.chain.last_irreversible_block_id⟩, none, none, none, none, none⟩] ∧
    (send_update_result p { head := hd } s).state.send_queue =
      [.blocks ⟨hd, ⟨p.chain.last_irreversible_block_num,
          p.chain.last_irreversible_block_id⟩, none, none, none, none, none⟩] ∧
    (send_update_result p { head := hd } s).state.current_request.map
      get_blocks_request_v0.start_block_num = some req.start_block_num ∧
    (send_update_result p { head := hd } s).state.need_to_send_update = false ∧
    send_update_block_state p hd s = send_update_result p { head := hd } s ∧
    (∀ changed : Bool, (changed || s.need_to_send_update) = true →
      send_update p changed s =
        send_update_result p { head := ⟨p.chain.head_block_num, p.chain.head_block_id⟩ } s) := by
  have hcond : ¬ (req.start_block_num ≤ (if req.irreversible_only then
      p.chain.last_irreversible_block_num else hd.block_num) ∧
      req.start_block_num < req.end_block_num) := by
    intro h; omega
  have hneed : (decide (req.start_block_num ≤ (if req.irreversible_only then
      p.chain.last_irreversible_block_num else hd.block_num)) &&
      decide (req.start_block_num < req.end_block_num)) = false := by
    rw [Bool.and_eq_false_iff]
    rcases hcur with h | h
    · left; simp only [decide_eq_false_iff_not]; omega
    · right; simp only [decide_eq_false_iff_not]; omega
  have heq := send_update_result_eq p { head := hd } s req hq hc hm
  rw [stepped_head_only p req { head := hd } hcond] at heq
  simp only [hneed] at heq
  have hf := send_pushed_fields (.blocks ⟨hd, ⟨p.chain.last_irreversible_block_num,
    p.chain.last_irreversible_block_id⟩, none, none, none, none, none⟩) s
  refine ⟨heq, ?_, ?_, ?_, ?_, send_update_block_state_eq p hd s req hq hc hm,
    fun changed hn => send_update_eq p changed s req hq hc hm hn⟩
  · rw [heq]; exact hf.2.1
  · rw [heq]; simp only [outcome.state]; rw [hf.1, hq]; rfl
  · rw [heq]; rfl
  · rw [heq]; rfl

/-- C10 (witness): a session that follows the head of the chain, at block 21 when the head is
block 20, with credit 2 and nothing queued. -/
theorem head_only_step_witness :
    tail_session.send_queue = [] ∧
    tail_session.current_request = some ⟨21, 100, 2, [], false, false, false, false⟩ ∧
    (send_update_result chain_only_plugin { head := ⟨20, 120⟩ } tail_session).state.pushed =
      tail_session.pushed ++ [.blocks ⟨⟨20, 120⟩, ⟨15, 115⟩, none, none, none, none, none⟩] :=
  ⟨by decide, by decide,
    (head_only_step chain_only_plugin tail_session ⟨21, 100, 2, [], false, false, false, false⟩
      ⟨20, 120⟩ (by decide) (by decide) (by decide) (by decide)).2.1⟩

/-! ## The block-result step -/

/-- C9: whenever a send step runs (`send_queue` empty, subscription active, credit not 0) with
the cursor `h` at most `current` and below `end_block_num`, where `current` is the height of the
last irreversible block if `irreversible_only` and the height of `head` otherwise, it enqueues
exactly one `get_blocks_result_v0`, the result `block_result`. Its `this_block` is
`(h, get_block_id(h))` if `get_block_id(h)` is present and is absent otherwise. Its
`prev_block` is `(h - 1, get_block_id(h - 1))` if both `get_block_id(h)` and
`get_block_id(h - 1)` are present and is absent otherwise, `h - 1` being computed in
`uint32_t`, which is `h - 1` for `h ≥ 1`. After the step the cursor is `h + 1`, the credit is
one less than before and `need_to_send_update` is `h + 1 ≤ current && h + 1 < end_block_num`,
whether `get_block_id(h)` is present or not. `send_update(block_state)` runs this step with the
accepted block as `head`, and `send_update(changed)` with the head of the chain. The counters
of the subscription are `uint32_t` values. -/
theorem block_result_step (p : plugin) (s : session) (req : get_blocks_request_v0)
    (hd : block_position) (hq : s.send_queue = []) (hc : s.current_request = some req)
    (hm : req.max_messages_in_flight ≠ 0)
    (hcur : req.start_block_num ≤ (if req.irreversible_only then
        p.chain.last_irreversible_block_num else hd.block_num) ∧
      req.start_block_num < req.end_block_num)
    (hend : req.end_block_num < u32_modulus)
    (hcredit : req.max_messages_in_flight < u32_modulus) :
    send_update_result p { head := hd } s =
      .done { send_pushed (.blocks (block_result p req hd)) s with
        current_request := some { req with
          start_block_num := req.start_block_num + 1,
          max_messages_in_flight := req.max_messages_in_flight - 1 },
        need_to_send_update :=
          decide (req.start_block_num + 1 ≤ (if req.irreversible_only then
            p.chain.last_irreversible_block_num else hd.block_num)) &&
          decide (req.start_block_num + 1 < req.end_block_num) } ∧
    (send_update_result p { head := hd } s).state.pushed =
      s.pushed ++ [.blocks (block_result p req hd)] ∧
    (block_result p req hd).head = hd ∧
    (block_result p req hd).this_block =
      (get_block_id p req.start_block_num).map
        (fun id => (⟨req.start_block_num, id⟩ : block_position)) ∧
    (block_result p req hd).prev_block =
      (if (get_block_id p req.start_block_num).isSome then
        (get_block_id p ((req.start_block_num + (u32_modulus - 1)) % u32_modulus)).map
          (fun id =>
            (⟨(req.start_block_num + (u32_modulus - 1)) % u32_modulus, id⟩ : block_position))
        else none) ∧
    (1 ≤ req.start_block_num →
      (req.start_block_num + (u32_modulus - 1)) % u32_modulus = req.start_block_num - 1) ∧
    send_update_block_state p hd s = send_update_result p { head := hd } s ∧
    (∀ changed : Bool, (changed || s.need_to_send_update) = true →
      send_update p changed s =
        send_update_result p { head := ⟨p.chain.head_block_num, p.chain.head_block_id⟩ } s) := by
  have hnext : (req.start_block_num + 1) % u32_modulus = req.start_block_num + 1 :=
    Nat.mod_eq_of_lt (by omega)
  have hdec : (req.max_messages_in_flight + (u32_modulus - 1)) % u32_modulus =
      req.max_messages_in_flight - 1 := by
    unfold u32_modulus at hcredit ⊢; omega
  have heq := send_update_result_eq p { head := hd } s req hq hc hm
  rw [stepped_block p req hd hcur] at heq
  simp only [hnext, hdec] at heq
  refine ⟨heq, ?_, ?_, ?_, ?_, ?_, send_update_block_state_eq p hd s req hq hc hm,
    fun changed hn => send_update_eq p changed s req hq hc hm hn⟩
  · rw [heq]; exact (send_pushed_fields (.blocks (block_result p req hd)) s).2.1
  · unfold block_result
    cases get_block_id p req.start_block_num <;> rfl
  · unfold block_result
    cases get_block_id p req.start_block_num <;> rfl
  · unfold block_result
    cases get_block_id p req.start_block_num <;> rfl
  · intro h1
    have hlt : req.start_block_num < u32_modulus := by omega
    unfold u32_modulus at hlt ⊢; omega

/-- C9 (witness): the trace log holds blocks 18..20 and the chain has block 10. A send step runs
with `send_queue` empty, credit 5, the cursor at 10, `current = 20` and `end_block_num = 100`,
for a subscription with `fetch_traces`: one result is enqueued, with `this_block = (10, 110)`,
`prev_block = (9, 109)` and no traces; the cursor is 11 and the credit 4 afterwards. -/
theorem block_result_step_witness :
    traces_session.send_queue = [] ∧
    traces_session.current_request = some traces_request ∧
    send_update_result late_trace_plugin { head := ⟨20, 120⟩ } traces_session =
      .done { send_pushed (.blocks ⟨⟨20, 120⟩, ⟨15, 115⟩, some ⟨10, 110⟩, some ⟨9, 109⟩,
          none, none, none⟩) traces_session with
        current_request := some ⟨11, 100, 4, [], false, false, true, false⟩,
        need_to_send_update := true } :=
  ⟨by decide, by decide,
    (block_result_step late_trace_plugin traces_session traces_request ⟨20, 120⟩
      (by decide) (by decide) (by decide) (by decide) (by decide) (by decide)).1⟩

/-! ## Fork recovery -/

/-- C2: fork recovery. For every height `h` and every request with
`have_positions = [(h, x)]` and `start_block_num = h + 10`, where the server has the id `a ≠ x`
at `h`, received by a session with `send_queue` empty, with credit not 0, `h ≤ current` (the
height of the head, or of the last irreversible block if `irreversible_only`) and
`h < end_block_num` (a `uint32_t`): the request handler installs the cursor `h`, returns
having enqueued exactly one result, whose `this_block` is `(h, a)`, and leaves the cursor at
`h + 1`. -/
theorem fork_recovery (p : plugin) (s : session) (req : get_blocks_request_v0)
    (h : Nat) (x a : block_id_type) (hP : req.have_positions = [⟨h, x⟩])
    (hs : req.start_block_num = h + 10) (hid : get_block_id p h = some a) (hne : a ≠ x)
    (hq : s.send_queue = []) (hm : req.max_messages_in_flight ≠ 0)
    (hcur : h ≤ (if req.irreversible_only then p.chain.last_irreversible_block_num
      else p.chain.head_block_num))
    (hend : h < req.end_block_num) (hu : req.end_block_num < u32_modulus) :
    reconcile p req = { req with start_block_num := h, have_positions := [] } ∧
    (block_result p (reconcile p req) ⟨p.chain.head_block_num, p.chain.head_block_id⟩).this_block =
      some ⟨h, a⟩ ∧
    on_get_blocks_request p req s =
      .done { send_pushed (.blocks (block_result p (reconcile p req)
          ⟨p.chain.head_block_num, p.chain.head_block_id⟩)) s with
        current_request := some { req with
          start_block_num := h + 1,
          have_positions := [],
          max_messages_in_flight :=
            (req.max_messages_in_flight + (u32_modulus - 1)) % u32_modulus },
        need_to_send_update :=
          decide (h + 1 ≤ (if req.irreversible_only then p.chain.last_irreversible_block_num
            else p.chain.head_block_num)) &&
          decide (h + 1 < req.end_block_num) } ∧
    (on_get_blocks_request p req s).state.pushed =
      s.pushed ++ [.blocks (block_result p (reconcile p req)
        ⟨p.chain.head_block_num, p.chain.head_block_id⟩)] := by
  have hrec : reconcile p req = { req with start_block_num := h, have_positions := [] } := by
    unfold reconcile
    rw [hP, hs]
    simp only [List.foldl_cons, List.foldl_nil, reconcile_position]
    rw [if_neg (by omega)]
    simp only [hid]
    rw [if_pos hne, min_eq_right (by omega)]
  have hnext : (h + 1) % u32_modulus = h + 1 := Nat.mod_eq_of_lt (by omega)
  have hrun : on_get_blocks_request p req s =
      .done { send_pushed (.blocks (block_result p (reconcile p req)
          ⟨p.chain.head_block_num, p.chain.head_block_id⟩)) s with
        current_request := some { req with
          start_block_num := h + 1,
          have_positions := [],
          max_messages_in_flight :=
            (req.max_messages_in_flight + (u32_modulus - 1)) % u32_modulus },
        need_to_send_update :=
          decide (h + 1 ≤ (if req.irreversible_only then p.chain.last_irreversible_block_num
            else p.chain.head_block_num)) &&
          decide (h + 1 < req.end_block_num) } := by
    unfold on_get_blocks_request
    rw [hrec]
    rw [send_update_eq p true
      { s with current_request := some { req with start_block_num := h, have_positions := [] } }
      { req with start_block_num := h, have_positions := [] } hq rfl hm rfl]
    rw [send_update_result_block p
      { s with current_request := some { req with start_block_num := h, have_positions := [] } }
      { req with start_block_num := h, have_positions := [] }
      ⟨p.chain.head_block_num, p.chain.head_block_id⟩ hq rfl hm ⟨hcur, hend⟩]
    simp only [hnext]
    congr 1
    unfold send_pushed
    cases hsd : s.sending <;> simp [push_back, start_write, hsd]
  refine ⟨hrec, ?_, hrun, ?_⟩
  · rw [hrec]
    simp only [block_result, hid]
  · rw [hrun]
    exact (send_pushed_fields _ s).2.1

/-- C2 (witness): the trace log holds blocks 18..20 and the chain has block 10 with id 110. A
greeted session with nothing queued receives `have_positions = [(10, 999)]`,
`start_block_num = 20`, credit 5, with `fetch_traces`. The handler rewinds the cursor to 10 and
enqueues the result for block 10, with `this_block = (10, 110)` and no traces; the cursor is
11 and the credit 4 afterwards. -/
theorem fork_recovery_witness :
    get_block_id late_trace_plugin 10 = some 110 ∧
    greeted_session.send_queue = [] ∧
    on_get_blocks_request late_trace_plugin
        ⟨20, 100, 5, [⟨10, 999⟩], false, false, true, false⟩ greeted_session =
      .done { send_pushed (.blocks ⟨⟨20, 120⟩, ⟨15, 115⟩, some ⟨10, 110⟩, some ⟨9, 109⟩,
          none, none, none⟩) greeted_session with
        current_request := some ⟨11, 100, 4, [], false, false, true, false⟩,
        need_to_send_update := true } :=
  ⟨by decide, by decide,
    (fork_recovery late_trace_plugin greeted_session
      ⟨20, 100, 5, [⟨10, 999⟩], false, false, true, false⟩ 10 999 110
      rfl rfl (by decide) (by decide) (by decide) (by decide) (by decide) (by decide)
      (by decide)).2.2.1⟩

/-! ## The lookup order of `get_block_id` -/

/-- C13: for every height `h`, `get_block_id(h)` is the id the trace log holds for `h` when the
trace log is enabled and `begin_block ≤ h < end_block`, whatever the chain-state log and the
chain hold; otherwise the id the chain-state log holds for `h` when that log is enabled and
holds `h`; otherwise the id of the block that `fetch_block_by_number(h)` returns; and absent in
every other case, also when `fetch_block_by_number` throws. The function has no other way to
end: its value is an optional id, never an exception. -/
theorem get_block_id_lookup_order (p : plugin) (h : Nat) :
    get_block_id p h = get_block_id_by_order p h ∧
    (∀ log, p.trace_log = some log → log.begin_block ≤ h ∧ h < log.end_block →
      get_block_id p h = some (log.block_ids h) ∧ get_block_id p h = log.get_block_id h) ∧
    (∀ log, p.chain_state_log = some log → log.begin_block ≤ h ∧ h < log.end_block →
      (∀ tlog, p.trace_log = some tlog → ¬ (tlog.begin_block ≤ h ∧ h < tlog.end_block)) →
      get_block_id p h = some (log.block_ids h) ∧ get_block_id p h = log.get_block_id h) ∧
    ((∀ tlog, p.trace_log = some tlog → ¬ (tlog.begin_block ≤ h ∧ h < tlog.end_block)) →
      (∀ clog, p.chain_state_log = some clog →
        ¬ (clog.begin_block ≤ h ∧ h < clog.end_block)) →
      get_block_id p h =
        match p.chain.fetch_block_by_number h with
        | .block b => some b.calculate_id
        | .null => none
        | .throws => none) := by
  have hchain : get_block_id_from_chain p h =
      match p.chain.fetch_block_by_number h with
      | .block b => some b.calculate_id
      | .null => none
      | .throws => none := by
    unfold get_block_id_from_chain
    cases p.chain.fetch_block_by_number h <;> rfl
  refine ⟨?_, ?_, ?_, ?_⟩
  · unfold get_block_id get_block_id_by_order get_block_id_from_chain_state_log
    rw [hchain]
    cases ht : p.trace_log with
    | none =>
      cases hc : p.chain_state_log with
      | none => simp
      | some clog =>
        by_cases hr : clog.begin_block ≤ h ∧ h < clog.end_block
        · simp [Option.filter, hr, state_history_log.get_block_id]
        · simp [Option.filter, hr]
    | some tlog =>
      by_cases hr : tlog.begin_block ≤ h ∧ h < tlog.end_block
      · simp [Option.filter, hr, state_history_log.get_block_id]
      · cases hc : p.chain_state_log with
        | none => simp [Option.filter, hr]
        | some clog =>
          by_cases hr2 : clog.begin_block ≤ h ∧ h < clog.end_block
          · simp [Option.filter, hr, hr2, state_history_log.get_block_id]
          · simp [Option.filter, hr, hr2]
  · intro log hl hr
    simp [get_block_id, hl, hr, state_history_log.get_block_id]
  · intro log hl hr hnot
    unfold get_block_id get_block_id_from_chain_state_log
    cases ht : p.trace_log with
    | none => simp [hl, hr, state_history_log.get_block_id]
    | some tlog =>
      have := hnot tlog ht
      simp [hl, hr, this, state_history_log.get_block_id]
  · intro hnot hnot2
    unfold get_block_id get_block_id_from_chain_state_log
    rw [hchain]
    cases ht : p.trace_log with
    | none =>
      cases hc : p.chain_state_log with
      | none => simp
      | some clog => have := hnot2 clog hc; simp [this]
    | some tlog =>
      have h1 := hnot tlog ht
      cases hc : p.chain_state_log with
      | none => simp [h1]
      | some clog => have := hnot2 clog hc; simp [h1, this]

/-! ## No counter wraps in the send step -/

theorem foldl_reconcile_position_le (p : plugin) (P : List block_position) (c : Nat) :
    P.foldl (reconcile_position p) c ≤ c := by
  induction P generalizing c with
  | nil => exact le_rfl
  | cons cp rest ih =>
    simp only [List.foldl_cons]
    refine le_trans (ih _) ?_
    unfold reconcile_position
    split
    · exact le_rfl
    · split
      · exact min_le_left _ _
      · split
        · exact min_le_left _ _
        · exact le_rfl

theorem before_update_u32 (p : plugin) (e : event) (s : session) (h : u32_subscription s)
    (he : e.is_u32 = true) : u32_subscription (before_update p e s) := by
  unfold before_update
  cases e with
  | get_blocks_request req =>
    simp only [event.is_u32, Bool.and_eq_true, decide_eq_true_eq] at he
    intro r hr
    have e : r = reconcile p req := (Option.some.inj hr).symm
    subst e
    exact ⟨lt_of_le_of_lt (foldl_reconcile_position_le p _ _) he.1.1, he.1.2, he.2⟩
  | get_blocks_ack_request n =>
    cases hc : s.current_request with
    | none => simpa [hc] using h
    | some cur =>
      intro r hr
      have e : r = add_credit n cur := (Option.some.inj hr).symm
      subst e
      obtain ⟨h1, h2, _⟩ := h cur hc
      exact ⟨h1, h2, Nat.mod_lt _ (by decide)⟩
  | accepted_block b =>
    cases hc : s.current_request with
    | none => simpa [hc] using h
    | some cur =>
      obtain ⟨h1, h2, h3⟩ := h cur hc
      simp only
      split
      · intro r hr
        have e : r = { cur with start_block_num := b.block_num } := (Option.some.inj hr).symm
        subst e
        exact ⟨by show b.block_num < u32_modulus; omega, h2, h3⟩
      · exact h
  | async_write => exact h
  | async_accept => exact h
  | get_status_request => exact h
  | fail => exact h

theorem u32_subscription_step (p : plugin) (e : event) (s : session) (h : u32_subscription s)
    (he : e.is_u32 = true) : u32_subscription (step p e s) := by
  have hb := before_update_u32 p e s h he
  rcases step_effect p e s with ⟨_, _, _, hr⟩ | ⟨r, r', res, h1, _, _, h4, h5, h6, h7⟩
  · rcases hr with hr | hr
    · intro req hreq; rw [hr] at hreq; exact h req hreq
    · intro req hreq; rw [hr] at hreq; exact hb req hreq
  · obtain ⟨b1, b2, _⟩ := hb r h1
    intro req hreq
    rw [h4] at hreq
    have e : req = r' := (Option.some.inj hreq).symm
    subst e
    refine ⟨?_, by rw [h6]; exact b2, by rw [h5]; exact Nat.mod_lt _ (by decide)⟩
    rcases h7 with ⟨hst, _⟩ | ⟨_, hst, _⟩
    · rw [hst]; exact b1
    · rw [hst]; exact Nat.mod_lt _ (by decide)

theorem u32_subscription_run (evs : List (plugin × event)) (s : session)
    (h : u32_subscription s) (he : ∀ pe ∈ evs, pe.2.is_u32 = true) :
    u32_subscription (run evs s) := by
  induction evs generalizing s with
  | nil => exact h
  | cons pe rest ih =>
    exact ih _ (u32_subscription_step pe.1 pe.2 s h (he pe (List.mem_cons_self _ _)))
      (fun x hx => he x (List.mem_cons_of_mem _ hx))

theorem stepped_cursor (p : plugin) (req : get_blocks_request_v0)
    (result : get_blocks_result_v0) :
    (stepped p req result).2 = req ∨
    (req.start_block_num < req.end_block_num ∧
      (stepped p req result).2 =
        { req with start_block_num := (req.start_block_num + 1) % u32_modulus }) := by
  by_cases hcond : req.start_block_num ≤
      (if req.irreversible_only then p.chain.last_irreversible_block_num
        else result.head.block_num) ∧
      req.start_block_num < req.end_block_num
  · right
    have hs : stepped p req result = block_step p req { result with last_irreversible :=
        ⟨p.chain.last_irreversible_block_num, p.chain.last_irreversible_block_id⟩ } := by
      unfold stepped
      rw [if_pos hcond]
    rw [hs]
    exact ⟨hcond.2, (block_step_fields p req _).1⟩
  · left
    rw [stepped_head_only p req result hcond]

theorem send_step_counters (p : plugin) (r : get_blocks_result_v0) (s : session)
    (h : u32_subscription s) :
    send_update_result p r s = .done { s with need_to_send_update := true } ∨
    send_update_result p r s = .threw { s with need_to_send_update := true } ∨
    ∃ (req req' : get_blocks_request_v0) (res : get_blocks_result_v0) (n : Bool),
      s.current_request = some req ∧ 1 ≤ req.max_messages_in_flight ∧
      (req.max_messages_in_flight + (u32_modulus - 1)) % u32_modulus =
        req.max_messages_in_flight - 1 ∧
      send_update_result p r s = .done { send_pushed (.blocks res) s with
        current_request := some { req' with
          max_messages_in_flight := req.max_messages_in_flight - 1 },
        need_to_send_update := n } ∧
      (req' = req ∨
       (req.start_block_num < req.end_block_num ∧ req.start_block_num + 2 ≤ u32_modulus ∧
        (req.start_block_num + 1) % u32_modulus = req.start_block_num + 1 ∧
        req' = { req with start_block_num := req.start_block_num + 1 })) := by
  have hcr : s.current_request = none ∨ ∃ req, s.current_request = some req := by
    cases s.current_request with
    | none => exact Or.inl rfl
    | some req => exact Or.inr ⟨req, rfl⟩
  rcases hcr with hc | ⟨req, hc⟩
  · exact Or.inl (send_update_result_idle p r s (Or.inl hc))
  · by_cases hq : s.send_queue = []
    swap
    · exact Or.inl (send_update_result_idle p r s (Or.inr (Or.inl hq)))
    by_cases hm : req.max_messages_in_flight = 0
    · exact Or.inl (send_update_result_idle p r s (Or.inr (Or.inr ⟨req, hc, hm⟩)))
    obtain ⟨b1, b2, b3⟩ := h req hc
    have hdec : (req.max_messages_in_flight + (u32_modulus - 1)) % u32_modulus =
        req.max_messages_in_flight - 1 := by
      unfold u32_modulus at b3 ⊢; omega
    have heq := send_update_result_eq p r s req hq hc hm
    right; right
    have hreq' := stepped_cursor p req r
    have hmax : (stepped p req r).2.max_messages_in_flight = req.max_messages_in_flight := by
      rcases hreq' with e | ⟨_, e⟩ <;> rw [e]
    refine ⟨req, (stepped p req r).2, (stepped p req r).1,
      (decide ((stepped p req r).2.start_block_num ≤ (if req.irreversible_only then
        p.chain.last_irreversible_block_num else r.head.block_num)) &&
        decide ((stepped p req r).2.start_block_num < (stepped p req r).2.end_block_num)),
      hc, by omega, hdec, ?_, ?_⟩
    · rw [heq, hmax, hdec]
    · rcases hreq' with e | ⟨hlt, e⟩
      · exact Or.inl e
      · have hnext : (req.start_block_num + 1) % u32_modulus = req.start_block_num + 1 :=
          Nat.mod_eq_of_lt (by omega)
        exact Or.inr ⟨hlt, by omega, hnext, by rw [e, hnext]⟩

/-- C14: in every state a session reaches when the numbers the events bring are `uint32_t`
values, the three counters of the subscription are `uint32_t` values, and a send step does one
of three things. It returns, or an exception leaves it, with the counters untouched. Or it
enqueues a result and executes the decrement of `max_messages_in_flight` on a value that is at
least 1, which gives that value minus one; and if it executes the increment of
`start_block_num`, it does so on a value below `end_block_num`, hence at most `2^32 - 2`, which
gives that value plus one. Neither operation wraps modulo `2^32`. -/
theorem no_wrap_in_send_step (evs : List (plugin × event))
    (hu : ∀ pe ∈ evs, pe.2.is_u32 = true) (p : plugin) (r : get_blocks_result_v0) :
    u32_subscription (run evs session.init) ∧
    (send_update_result p r (run evs session.init) =
        .done { run evs session.init with need_to_send_update := true } ∨
      send_update_result p r (run evs session.init) =
        .threw { run evs session.init with need_to_send_update := true } ∨
      ∃ (req req' : get_blocks_request_v0) (res : get_blocks_result_v0) (n : Bool),
        (run evs session.init).current_request = some req ∧
        1 ≤ req.max_messages_in_flight ∧
        (req.max_messages_in_flight + (u32_modulus - 1)) % u32_modulus =
          req.max_messages_in_flight - 1 ∧
        send_update_result p r (run evs session.init) =
          .done { send_pushed (.blocks res) (run evs session.init) with
            current_request := some { req' with
              max_messages_in_flight := req.max_messages_in_flight - 1 },
            need_to_send_update := n } ∧
        (req' = req ∨
         (req.start_block_num < req.end_block_num ∧ req.start_block_num + 2 ≤ u32_modulus ∧
          (req.start_block_num + 1) % u32_modulus = req.start_block_num + 1 ∧
          req' = { req with start_block_num := req.start_block_num + 1 }))) := by
  have hinv := u32_subscription_run evs session.init
    (by intro req hreq; simp [session.init] at hreq) hu
  exact ⟨hinv, send_step_counters p r _ hinv⟩

/-- C14 (witness): a client asks for the largest counters, `start = 2^32 - 2`,
`end = 2^32 - 1`, credit `2^32 - 1`, then acks `2^32 - 1` messages. -/
theorem no_wrap_in_send_step_witness :
    u32_subscription (run [(chain_only_plugin, .async_accept),
      (chain_only_plugin, .async_write),
      (chain_only_plugin, .get_blocks_request
        ⟨4294967294, 4294967295, 4294967295, [], false, false, false, false⟩),
      (chain_only_plugin, .get_blocks_ack_request 4294967295)] session.init) :=
  (no_wrap_in_send_step _ (by decide) chain_only_plugin {}).1

/-! ## Quiescence of a session that follows the head -/

theorem send_update_idle (p : plugin) (s : session)
    (h : ¬ (s.send_queue = [] ∧ s.need_to_send_update = true ∧
      ∃ req, s.current_request = some req ∧ req.max_messages_in_flight ≠ 0)) :
    send_update p false s = .done s := by
  unfold send_update
  simp only [Bool.false_eq_true, if_false]
  split
  · rfl
  · rename_i req hreq
    split
    · rfl
    · rename_i hg
      exfalso
      apply h
      simp only [Bool.or_eq_true, Bool.not_eq_true', beq_iff_eq, not_or] at hg
      refine ⟨?_, ?_, req, hreq, hg.2⟩
      · have := hg.1.1
        cases hq : s.send_queue with
        | nil => rfl
        | cons a b => rw [hq] at this; simp at this
      · have := hg.1.2
        cases hn : s.need_to_send_update with
        | true => rfl
        | false => rw [hn] at this; simp at this

theorem quiet_step (p : plugin) (e : event) (s : session)
    (hn : s.need_to_send_update = false) (he : e.wakes = false) :
    (step p e s).need_to_send_update = false ∧
    ∃ fs : List frame, (∀ f ∈ fs, f.is_blocks_result = false) ∧
      (step p e s).pushed = s.pushed ++ fs := by
  have hidle : ∀ s0 : session, s0.need_to_send_update = false →
      send_update p false s0 = .done s0 := by
    intro s0 h0
    apply send_update_idle
    intro h
    rw [h0] at h
    exact absurd h.2.1 (by simp)
  unfold step
  by_cases hc : s.closed = true
  · rw [if_pos hc]; exact ⟨hn, [], by simp, by simp⟩
  rw [if_neg hc]
  cases e with
  | accepted_block b => simp [event.wakes] at he
  | get_blocks_request req => simp [event.wakes] at he
  | async_accept =>
    refine ⟨?_, [.abi], by simp [frame.is_blocks_result], ?_⟩
    · show (send_pushed .abi s).need_to_send_update = false
      rw [(send_pushed_fields _ s).2.2.2.1]; exact hn
    · exact (send_pushed_fields _ s).2.1
  | get_status_request =>
    refine ⟨?_, [.status (get_status_result p)], by simp [frame.is_blocks_result], ?_⟩
    · show (send_pushed _ s).need_to_send_update = false
      rw [(send_pushed_fields _ s).2.2.2.1]; exact hn
    · exact (send_pushed_fields _ s).2.1
  | get_blocks_ack_request n =>
    simp only [on_get_blocks_ack_request]
    split
    · exact ⟨hn, [], by simp, by simp [catch_and_close]⟩
    · rw [hidle _ (by exact hn)]
      exact ⟨hn, [], by simp, by simp [catch_and_close]⟩
  | async_write =>
    simp only
    split
    · unfold on_async_write send
      simp only [Bool.false_eq_true, if_false]
      split
      · rw [hidle _ (by exact hn)]
        exact ⟨hn, [], by simp, by simp [catch_and_close]⟩
      · exact ⟨hn, [], by simp, by simp [catch_and_close, start_write]⟩
    · exact ⟨hn, [], by simp, by simp⟩
  | fail => exact ⟨hn, [], by simp, by simp [close]⟩

theorem quiet_run (evs : List (plugin × event)) (s : session)
    (hn : s.need_to_send_update = false) (he : ∀ pe ∈ evs, pe.2.wakes = false) :
    (run evs s).need_to_send_update = false ∧
    ∃ new : List frame, (run evs s).pushed = s.pushed ++ new ∧ count_blocks_results new = 0 := by
  induction evs generalizing s with
  | nil => exact ⟨hn, [], by simp [run], by simp [count_blocks_results]⟩
  | cons pe rest ih =>
    obtain ⟨h1, fs, hfs, hp⟩ := quiet_step pe.1 pe.2 s hn (he pe (List.mem_cons_self _ _))
    obtain ⟨k1, new, k2, k3⟩ := ih (step pe.1 pe.2 s) h1
      (fun x hx => he x (List.mem_cons_of_mem _ hx))
    refine ⟨k1, fs ++ new, ?_, ?_⟩
    · show (run rest (step pe.1 pe.2 s)).pushed = _
      rw [k2, hp, List.append_assoc]
    · have h0 : count_blocks_results fs = 0 := by
        unfold count_blocks_results
        rw [List.countP_eq_zero]
        intro f hf
        simp [hfs f hf]
      unfold count_blocks_results at h0 k3 ⊢
      rw [List.countP_append, h0, k3]

theorem head_only_clears_flag (p : plugin) (s : session) (req : get_blocks_request_v0)
    (hd : block_position) (hq : s.send_queue = []) (hc : s.current_request = some req)
    (hm : req.max_messages_in_flight ≠ 0)
    (hcur : (if req.irreversible_only then p.chain.last_irreversible_block_num
        else hd.block_num) < req.start_block_num ∨ req.end_block_num ≤ req.start_block_num) :
    (send_update_result p { head := hd } s).state.need_to_send_update = false ∧
    (send_update_result p { head := hd } s).state.pushed =
      s.pushed ++ [.blocks ⟨hd, ⟨p.chain.last_irreversible_block_num,
        p.chain.last_irreversible_block_id⟩, none, none, none, none, none⟩] := by
  have hcond : ¬ (req.start_block_num ≤ (if req.irreversible_only then
      p.chain.last_irreversible_block_num else hd.block_num) ∧
      req.start_block_num < req.end_block_num) := by
    intro h; omega
  have hneed : (decide (req.start_block_num ≤ (if req.irreversible_only then
      p.chain.last_irreversible_block_num else hd.block_num)) &&
      decide (req.start_block_num < req.end_block_num)) = false := by
    rw [Bool.and_eq_false_iff]
    rcases hcur with h | h
    · left; simp only [decide_eq_false_iff_not]; omega
    · right; simp only [decide_eq_false_iff_not]; omega
  have heq := send_update_result_eq p { head := hd } s req hq hc hm
  rw [stepped_head_only p req { head := hd } hcond] at heq
  simp only [hneed] at heq
  rw [heq]
  exact ⟨rfl, (send_pushed_fields _ s).2.1⟩

theorem catch_and_close_pushed (o : outcome) : (catch_and_close o).pushed = o.state.pushed := by
  cases o <;> rfl

/-- C12: `send_update()` enqueues a frame only if, when it is called, `send_queue` is empty,
`need_to_send_update` is true, a subscription is active and its credit is not 0; so a
`get_blocks_ack_request_v0` enqueues a frame only if this holds with the credit after the
addition, and a write completion only if it holds with the `send_queue` left after the head
was erased. Consequently, from the state a head-only step leaves, over any sequence of events
that contains no accepted block and no `get_blocks_request_v0` (acks, write completions, status
requests), `need_to_send_update` stays false and no `get_blocks_result_v0` frame is enqueued,
whatever the credit. -/
theorem tail_follower_quiescence :
    (∀ (p : plugin) (s : session), (send_update p false s).state.pushed ≠ s.pushed →
      s.send_queue = [] ∧ s.need_to_send_update = true ∧
        ∃ req, s.current_request = some req ∧ req.max_messages_in_flight ≠ 0) ∧
    (∀ (p : plugin) (n : Nat) (s : session),
      (step p (.get_blocks_ack_request n) s).pushed ≠ s.pushed →
      s.send_queue = [] ∧ s.need_to_send_update = true ∧
        ∃ req, s.current_request = some req ∧
          (req.max_messages_in_flight + n) % u32_modulus ≠ 0) ∧
    (∀ (p : plugin) (s : session), (step p .async_write s).pushed ≠ s.pushed →
      s.send_queue.tail = [] ∧ s.need_to_send_update = true ∧
        ∃ req, s.current_request = some req ∧ req.max_messages_in_flight ≠ 0) ∧
    (∀ (p : plugin) (s : session) (req : get_blocks_request_v0) (hd : block_position)
      (evs : List (plugin × event)),
      s.send_queue = [] → s.current_request = some req → req.max_messages_in_flight ≠ 0 →
      ((if req.irreversible_only then p.chain.last_irreversible_block_num
        else hd.block_num) < req.start_block_num ∨
        req.end_block_num ≤ req.start_block_num) →
      (∀ pe ∈ evs, pe.2.wakes = false) →
      (run evs (send_update_result p { head := hd } s).state).need_to_send_update = false ∧
      ∃ new : List frame,
        (run evs (send_update_result p { head := hd } s).state).pushed =
          (send_update_result p { head := hd } s).state.pushed ++ new ∧
        count_blocks_results new = 0) := by
  have part1 : ∀ (p : plugin) (s : session), (send_update p false s).state.pushed ≠ s.pushed →
      s.send_queue = [] ∧ s.need_to_send_update = true ∧
        ∃ req, s.current_request = some req ∧ req.max_messages_in_flight ≠ 0 := by
    intro p s h
    by_contra hnot
    rw [send_update_idle p s hnot] at h
    exact h rfl
  refine ⟨part1, ?_, ?_, ?_⟩
  · intro p n s h
    unfold step at h
    by_cases hc : s.closed = true
    · rw [if_pos hc] at h; exact absurd rfl h
    rw [if_neg hc] at h
    simp only [on_get_blocks_ack_request] at h
    cases hr : s.current_request with
    | none => rw [hr] at h; exact absurd rfl h
    | some req =>
      rw [hr] at h
      simp only [catch_and_close_pushed] at h
      obtain ⟨h1, h2, r, h3, h4⟩ := part1 p _ h
      have e : r = add_credit n req := (Option.some.inj h3).symm
      subst e
      exact ⟨h1, h2, req, rfl, h4⟩
  · intro p s h
    unfold step at h
    by_cases hc : s.closed = true
    · rw [if_pos hc] at h; exact absurd rfl h
    rw [if_neg hc] at h
    simp only at h
    by_cases hs : s.sending = true
    swap
    · rw [if_neg hs] at h; exact absurd rfl h
    rw [if_pos hs, catch_and_close_pushed] at h
    rcases send_cases p { s with send_queue := s.send_queue.tail, sending := false } rfl with
      ⟨f, rest, _, h2⟩ | ⟨h1, _⟩
    · unfold on_async_write at h
      rw [h2] at h
      exact absurd rfl h
    · have hsend : on_async_write p s =
          send_update p false { s with send_queue := s.send_queue.tail, sending := false } := by
        have h1' : s.send_queue.tail = [] := h1
        simp [on_async_write, send, h1']
      rw [hsend] at h
      obtain ⟨k1, k2, k3⟩ := part1 p _ h
      exact ⟨k1, k2, k3⟩
  · intro p s req hd evs hq hc hm hcur he
    exact quiet_run evs _ (head_only_clears_flag p s req hd hq hc hm hcur).1 he

/-- C12 (witness): a session that follows the head at block 21, with credit 2 and nothing
queued, is sent a head-only result; three acks, two write completions and a status request
follow. -/
theorem tail_follower_quiescence_witness :
    tail_session.send_queue = [] ∧
    tail_session.current_request = some ⟨21, 100, 2, [], false, false, false, false⟩ ∧
    (run ack_events
      (send_update_result chain_only_plugin { head := ⟨20, 120⟩ }
        tail_session).state).need_to_send_update = false ∧
    ∃ new : List frame,
      (run ack_events
        (send_update_result chain_only_plugin { head := ⟨20, 120⟩ } tail_session).state).pushed =
        (send_update_result chain_only_plugin { head := ⟨20, 120⟩ } tail_session).state.pushed ++
          new ∧
      count_blocks_results new = 0 :=
  ⟨by decide, by decide,
    tail_follower_quiescence.2.2.2 chain_only_plugin tail_session
      ⟨21, 100, 2, [], false, false, false, false⟩ ⟨20, 120⟩ ack_events
      (by decide) (by decide) (by decide) (by decide) (by decide)⟩

/-! ## Accepted blocks -/

theorem on_accepted_block_eq (p : plugin) (b : block_position) (s : session)
    (req : get_blocks_request_v0) (hc : s.current_request = some req) :
    on_accepted_block p b s =
      send_update_block_state p b { s with
        current_request := some { req with
          start_block_num := min req.start_block_num b.block_num } } := by
  unfold on_accepted_block
  simp only [hc]
  by_cases h : b.block_num < req.start_block_num
  · rw [if_pos h, min_eq_right (le_of_lt h)]
  · rw [if_neg h, min_eq_left (by omega)]
    congr 1
    cases s
    simp only at hc
    simp [hc]

theorem on_accepted_block_sessions_eq (p : plugin) (b : block_position) (ss : List session) :
    on_accepted_block_sessions p b ss =
      (ss.map fun s => (on_accepted_block p b s).state, true) := by
  induction ss with
  | nil => rfl
  | cons s rest ih =>
    unfold on_accepted_block_sessions
    obtain ⟨s', h⟩ := on_accepted_block_returns p b s
    rw [h, ih]
    simp only [List.map_cons, h, outcome.state]

/-- C11: the accepted-block rewind. For an accepted block `b` at height `h` and a session with
an active subscription whose cursor was `s`, the body of the loop of `on_accepted_block` sets
the cursor to `min(s, h)` and then runs `send_update(block_state)`, which is the send step with
`head = (h, id)` when the session can send; it returns. Afterwards the cursor is at most
`h + 1`; if the session could not send (`send_queue` not empty, or no credit) the cursor is
`min(s, h)`, the credit is unchanged, `need_to_send_update` is true and nothing was enqueued.
A session with no subscription enqueues nothing. The loop visits every registered session:
each is afterwards the one its body leaves. -/
theorem accepted_block_rewinds_cursor (p : plugin) (b : block_position) :
    (∀ (s : session) (req : get_blocks_request_v0), s.current_request = some req →
      on_accepted_block p b s =
        send_update_block_state p b { s with
          current_request := some { req with
            start_block_num := min req.start_block_num b.block_num } } ∧
      (s.send_queue = [] → req.max_messages_in_flight ≠ 0 →
        on_accepted_block p b s =
          send_update_result p { head := b } { s with
            current_request := some { req with
              start_block_num := min req.start_block_num b.block_num },
            need_to_send_update := true }) ∧
      (∃ req', (on_accepted_block p b s).state.current_request = some req' ∧
        req'.start_block_num ≤ b.block_num + 1) ∧
      ((s.send_queue ≠ [] ∨ req.max_messages_in_flight = 0) →
        on_accepted_block p b s =
          .done { s with
            current_request := some { req with
              start_block_num := min req.start_block_num b.block_num },
            need_to_send_update := true })) ∧
    (∀ s : session, s.current_request = none →
      on_accepted_block p b s = .done { s with need_to_send_update := true }) ∧
    (∀ s : session, ∃ s', on_accepted_block p b s = .done s') ∧
    (∀ ss : List session,
      on_accepted_block_sessions p b ss =
        (ss.map fun s => (on_accepted_block p b s).state, true)) := by
  refine ⟨?_, ?_, on_accepted_block_returns p b, on_accepted_block_sessions_eq p b⟩
  · intro s req hc
    have heq := on_accepted_block_eq p b s req hc
    refine ⟨heq, ?_, ?_, ?_⟩
    · intro hq hm
      rw [heq]
      unfold send_update_block_state
      simp [hq, hm]
    · rw [heq]
      have hmin : min req.start_block_num b.block_num ≤ b.block_num := min_le_right _ _
      rcases update_outcome_request _ _ (send_update_block_state_outcome p b
        { s with current_request := some { req with
            start_block_num := min req.start_block_num b.block_num } }) with
        h | ⟨r0, h1, _, _, h4⟩
      · exact ⟨_, h, by show min req.start_block_num b.block_num ≤ b.block_num + 1; omega⟩
      · have e : r0 = { req with start_block_num := min req.start_block_num b.block_num } :=
          (Option.some.inj h1).symm
        subst e
        rcases h4 with h4 | ⟨_, h4⟩
        · exact ⟨_, h4, by show min req.start_block_num b.block_num ≤ b.block_num + 1; omega⟩
        · refine ⟨_, h4, ?_⟩
          show (min req.start_block_num b.block_num + 1) % u32_modulus ≤ b.block_num + 1
          exact le_trans (Nat.mod_le _ _) (by omega)
    · intro h
      rw [heq]
      unfold send_update_block_state
      simp only
      rcases h with h | h
      · simp [h]
      · simp [h]
  · intro s hc
    unfold on_accepted_block send_update_block_state
    simp [hc]

/-- C11 (witness): block 21 is accepted when the last irreversible block becomes 16, with two
registered sessions with an active subscription. The first follows the last irreversible block
with `fetch_traces`, at cursor 16 with credit 4; the trace log holds `18..21`. The second has
its cursor at 25. Both are visited: the first is sent block 16 and its cursor becomes 17, the
second is rewound to 21, is sent block 21 and its cursor becomes 22. -/
theorem accepted_block_rewinds_cursor_witness :
    irreversible_traces_session.current_request =
      some ⟨16, 100, 4, [], true, false, true, false⟩ ∧
    ahead_session.current_request = some ⟨25, 100, 2, [], false, false, false, false⟩ ∧
    on_accepted_block_sessions advanced_trace_plugin ⟨21, 121⟩
        [irreversible_traces_session, ahead_session] =
      ([irreversible_traces_session, ahead_session].map
        fun s => (on_accepted_block advanced_trace_plugin ⟨21, 121⟩ s).state, true) ∧
    (on_accepted_block advanced_trace_plugin ⟨21, 121⟩
        irreversible_traces_session).state.current_request =
      some ⟨17, 100, 3, [], true, false, true, false⟩ ∧
    this_block_heights (on_accepted_block advanced_trace_plugin ⟨21, 121⟩
        irreversible_traces_session).state.send_queue = [16] ∧
    (on_accepted_block advanced_trace_plugin ⟨21, 121⟩ ahead_session).state.current_request =
      some ⟨22, 100, 1, [], false, false, false, false⟩ ∧
    this_block_heights (on_accepted_block advanced_trace_plugin ⟨21, 121⟩
        ahead_session).state.send_queue = [21] :=
  ⟨by decide, by decide,
    (accepted_block_rewinds_cursor advanced_trace_plugin ⟨21, 121⟩).2.2.2
      [irreversible_traces_session, ahead_session],
    by decide, by decide, by decide, by decide⟩

end eosio
